import Mathlib

/-
Verification development for the Crawler repository (crawler.py, scooper.py,
paritybit.py): a shallow embedding of the crawl engine, the dead-site ledger,
the fetcher's body-read loop, the keyword watch engine and the snippet search,
together with theorems checking the natural-language specification against
these definitions.

Conventions of the embedding:
- machine timestamps (datetime values, file mtimes) are modelled as `Int`;
- file bodies and searchable text are modelled as `List Char`, raw bytes as
  `List Nat`;
- Python dicts that the code mutates key-by-key are modelled as association
  lists in insertion order (`alist_*` helpers below), which is exactly the
  iteration order of a Python dict;
- disk persistence is modelled by recording the value handed to each save
  call (a trace of writes), and the scooper/crawler save functions of claim
  C1 are modelled at the level of filesystem operations (`FsOp`).
-/

/-! ## Association lists (Python dict in insertion order) -/

/-- Lookup in an insertion-ordered association list (`d.get(k)`). -/
def alist_lookup {κ β : Type} [BEq κ] (m : List (κ × β)) (k : κ) : Option β :=
  (m.find? (fun p => p.fst == k)).map Prod.snd

/-- Update in an insertion-ordered association list (`d[k] = v`): an existing
key keeps its position, a new key is appended, as in a Python dict. -/
def alist_set {κ β : Type} [BEq κ] : List (κ × β) → κ → β → List (κ × β)
  | [], k, v => [(k, v)]
  | p :: rest, k, v =>
    if p.fst == k then (k, v) :: rest else p :: alist_set rest k v

/-- Removal from an association list (`d.pop(k, None)`). -/
def alist_remove {κ β : Type} [BEq κ] (m : List (κ × β)) (k : κ) : List (κ × β) :=
  m.filter (fun p => !(p.fst == k))

theorem alist_lookup_set_self {κ β : Type} [BEq κ] [LawfulBEq κ]
    (m : List (κ × β)) (k : κ) (v : β) :
    alist_lookup (alist_set m k v) k = some v := by
  induction m with
  | nil => simp [alist_lookup, alist_set, List.find?]
  | cons p rest ih =>
    by_cases h : p.fst == k
    · simp [alist_set, h, alist_lookup, List.find?]
    · simp only [alist_set, h, if_false]
      simpa [alist_lookup, List.find?, h] using ih

theorem alist_lookup_set_ne {κ β : Type} [BEq κ] [LawfulBEq κ]
    (m : List (κ × β)) (k k' : κ) (v : β) (hne : k' ≠ k) :
    alist_lookup (alist_set m k v) k' = alist_lookup m k' := by
  have hkk : (k == k') = false := beq_eq_false_iff_ne.mpr (Ne.symm hne)
  induction m with
  | nil =>
    simp [alist_lookup, alist_set, List.find?, hkk]
  | cons p rest ih =>
    by_cases h : p.fst == k
    · have hpk : p.fst = k := by simpa using h
      have hpk' : (p.fst == k') = false := by rw [hpk]; exact hkk
      simp [alist_set, h, alist_lookup, List.find?, hkk, hpk']
    · by_cases h2 : p.fst == k'
      · simp [alist_set, h, alist_lookup, List.find?, h2]
      · simp only [alist_set, h, if_false]
        simpa [alist_lookup, List.find?, h2] using ih

theorem alist_lookup_remove_self {κ β : Type} [BEq κ] [LawfulBEq κ]
    (m : List (κ × β)) (k : κ) :
    alist_lookup (alist_remove m k) k = none := by
  induction m with
  | nil => simp [alist_lookup, alist_remove]
  | cons p rest ih =>
    by_cases h : p.fst == k
    · simp only [alist_remove, List.filter, h, Bool.not_true]
      exact ih
    · simp [alist_remove, alist_lookup, List.find?, h, ih]

theorem alist_lookup_mem {κ β : Type} [BEq κ] [LawfulBEq κ]
    {m : List (κ × β)} {k : κ} {v : β}
    (h : alist_lookup m k = some v) : (k, v) ∈ m := by
  unfold alist_lookup at h
  obtain ⟨p, hfind, hsnd⟩ : ∃ p, m.find? (fun q => q.fst == k) = some p ∧ p.snd = v := by
    cases hf : m.find? (fun q => q.fst == k) with
    | none => simp [hf] at h
    | some p => exact ⟨p, rfl, by simpa [hf] using h⟩
  have hmem := List.mem_of_find?_eq_some hfind
  have hk : p.fst = k := by
    have := List.find?_some hfind
    simpa using this
  have : p = (k, v) := by
    cases p with
    | mk a b => simp_all
  rw [← this]; exact hmem

/-- The contents of a Python set built by inserting the elements of `l` in
order: the distinct elements, first occurrences first.  (The set's iteration
order is a separate, implementation-defined matter; enumerations are
modelled as permutations of this list.) -/
def py_set_elems {α : Type} [BEq α] : List α → List α
  | [] => []
  | a :: as => a :: (py_set_elems as).filter (fun b => !(b == a))

theorem mem_py_set_elems {α : Type} [BEq α] [LawfulBEq α] :
    ∀ (l : List α) (x : α), x ∈ py_set_elems l ↔ x ∈ l := by
  intro l
  induction l with
  | nil => intro x; simp [py_set_elems]
  | cons a as ih =>
    intro x
    simp only [py_set_elems, List.mem_cons, List.mem_filter, ih, Bool.not_eq_true']
    constructor
    · rintro (rfl | ⟨hm, -⟩)
      · exact Or.inl rfl
      · exact Or.inr hm
    · rintro (rfl | hm)
      · exact Or.inl rfl
      · by_cases hx : x = a
        · exact Or.inl hx
        · exact Or.inr ⟨hm, by simpa using hx⟩

theorem nodup_py_set_elems {α : Type} [BEq α] [LawfulBEq α] :
    ∀ (l : List α), (py_set_elems l).Nodup := by
  intro l
  induction l with
  | nil => simp [py_set_elems]
  | cons a as ih =>
    simp only [py_set_elems, List.nodup_cons]
    refine ⟨?_, ih.filter _⟩
    intro hmem
    rw [List.mem_filter] at hmem
    simp at hmem

/-! ## Claim C1 model: the shapes of the three shared-state writers

Cross-process shared state is written by three functions:
`save_metadata` (crawler.py lines 118-120), `save_deadlist`
(crawler.py lines 217-224) and `atomic_write_json` (scooper.py lines
174-178).  We model each writer by the sequence of filesystem operations it
performs.  A path is a `pathlib.Path`-style stem plus extension suffix, so
that `with_suffix` can be expressed. -/

/-- Filesystem path, stem plus extension, as used by `pathlib.Path.with_suffix`. -/
structure FPath where
  stem : String
  ext : String
deriving DecidableEq, Repr

/-- Python `path.with_suffix(s)`: replace the extension. -/
def FPath.with_suffix (p : FPath) (s : String) : FPath :=
  { stem := p.stem, ext := s }

/-- One observable filesystem mutation. -/
inductive FsOp where
  | write (path : FPath) (content : String)
  | rename (src : FPath) (dst : FPath)
deriving DecidableEq, Repr

/-- Path of a site's metadata file (`crawler.py metadata_path`). -/
def metadata_path (site_dir : String) : FPath :=
  { stem := site_dir ++ "/metadata", ext := ".json" }

/-- Filesystem operations of `save_metadata` (crawler.py):
`mp.write_text(json.dumps(meta, indent=2))` — a single direct write of the
serialized metadata to the target path.  `serialized` stands for the
`json.dumps` output. -/
def save_metadata_ops (site_dir : String) (serialized : String) : List FsOp :=
  [FsOp.write (metadata_path site_dir) serialized]

/-- The dead-site ledger file (`DEAD_FILE = Path("dead_sites.json")`). -/
def DEAD_FILE : FPath := { stem := "dead_sites", ext := ".json" }

/-- Filesystem operations of `save_deadlist` (crawler.py):
`DEAD_FILE.write_text(json.dumps(serial, indent=2))` — a single direct write
to the ledger path. -/
def save_deadlist_ops (serialized : String) : List FsOp :=
  [FsOp.write DEAD_FILE serialized]

/-- Filesystem operations of `atomic_write_json` (scooper.py): write the
serialized data to `path.with_suffix(".tmp")`, then `tmp.replace(path)`. -/
def atomic_write_json_ops (path : FPath) (serialized : String) : List FsOp :=
  [FsOp.write (path.with_suffix ".tmp") serialized,
   FsOp.rename (path.with_suffix ".tmp") path]

/-- The write discipline asserted by the spec for shared state: the full
serialized record is written to a temporary location distinct from the
target and then renamed over the target. -/
def isAtomicReplaceWrite (ops : List FsOp) (target : FPath) : Prop :=
  ∃ tmp content, tmp ≠ target ∧
    ops = [FsOp.write tmp content, FsOp.rename tmp target]

/-! ## Claim C6 model: the streaming body-read loop of `fetch_url`

`fetch_url` (crawler.py lines 134-200) streams the response body in chunks:
empty chunks are skipped, each nonempty chunk is appended and the running
total compared against `max_bytes`; when the total reaches the cap the
response is closed and reading stops.  The wall-clock timeout check is a
real-time condition and is not part of this functional model.  The returned
record is `{"status_code", "headers", "content", "text"}` where `text` is a
lossy utf-8 decode of `content`; the decode is abstracted as a parameter. -/

/-- The `for chunk in resp.iter_content(...)` loop: `total` is the byte count
accumulated so far; returns the list of chunks kept.  On
`total >= max_bytes` after appending a chunk, reading stops (the cap-hitting
chunk is kept whole, later chunks are never read). -/
def read_body_loop (max_bytes : Nat) : Nat → List (List Nat) → List (List Nat)
  | _, [] => []
  | total, c :: cs =>
    if c.isEmpty then read_body_loop max_bytes total cs
    else if max_bytes ≤ total + c.length then [c]
    else c :: read_body_loop max_bytes (total + c.length) cs

/-- Whether the read loop exits through the `total >= max_bytes` break, i.e.
whether the fetch was actually truncated by the byte cap. -/
def cap_hit (max_bytes : Nat) : Nat → List (List Nat) → Bool
  | _, [] => false
  | total, c :: cs =>
    if c.isEmpty then cap_hit max_bytes total cs
    else if max_bytes ≤ total + c.length then true
    else cap_hit max_bytes (total + c.length) cs

/-- The record returned by `fetch_url` on success: exactly the four fields
built at crawler.py lines 169-189.  There is no further field. -/
structure FetchResult where
  status_code : Nat
  headers : List (String × String)
  content : List Nat
  text : Option (List Char)
deriving DecidableEq, Repr

/-- The successful return value of `fetch_url`, given the response status,
headers and the stream of body chunks.  `decode` models
`content.decode("utf-8", errors="replace")`. -/
def fetch_url_result (decode : List Nat → List Char) (status : Nat)
    (headers : List (String × String)) (chunks : List (List Nat))
    (max_bytes : Nat) : FetchResult :=
  let content := (read_body_loop max_bytes 0 chunks).flatten
  { status_code := status
    headers := headers
    content := content
    text := some (decode content) }

theorem read_body_loop_stops {max_bytes : Nat} :
    ∀ (pre : List (List Nat)) (total : Nat), cap_hit max_bytes total pre = true →
      ∀ post, read_body_loop max_bytes total (pre ++ post) =
        read_body_loop max_bytes total pre := by
  intro pre
  induction pre with
  | nil => intro total h post; simp [cap_hit] at h
  | cons c cs ih =>
    intro total h post
    by_cases hc : c.isEmpty
    · simp only [cap_hit, hc, if_true] at h
      simpa [read_body_loop, hc] using ih total h post
    · by_cases hcap : max_bytes ≤ total + c.length
      · simp [read_body_loop, hc, hcap]
      · simp only [cap_hit, hc, hcap, if_false, Bool.if_false_left] at h
        have h' : cap_hit max_bytes (total + c.length) cs = true := by
          simpa using h
        simp [read_body_loop, hc, hcap, ih (total + c.length) h' post]

/-! ## Dead-site ledger (crawler.py lines 202-249)

Entries of `dead_sites.json` are `{marked_at, until, reason}`.  The inert
`marked_at` field (written, never read by either engine) is omitted.  An ISO
timestamp string is modelled by its parse result: `none` stands for a string
`datetime.fromisoformat` rejects, `some t` for one that parses to time `t`,
so a raw entry's `until` field is `Option (Option Int)`: `none` = field
absent or falsy, `some none` = present but unparseable, `some (some t)` =
parseable. -/

/-- A ledger entry as stored in `dead_sites.json`, before any parsing. -/
structure RawDeadEntry where
  until_ts : Option (Option Int)
  reason : String
deriving DecidableEq, Repr

/-- A ledger entry in the crawler's memory after `load_deadlist` converted
`until` to a datetime. -/
structure DeadEntry where
  until_ts : Option Int
  reason : String
deriving DecidableEq, Repr

/-- Crawler `load_deadlist`: a missing or unreadable file (`file = none`)
yields `{}`; otherwise the `for` loop converts every present `until` via
`datetime.fromisoformat`.  The loop runs inside one `try/except` that
returns `{}`, so a single unparseable `until` string discards the whole
loaded ledger. -/
def load_deadlist (file : Option (List (String × RawDeadEntry))) :
    List (String × DeadEntry) :=
  match file with
  | none => []
  | some entries =>
    if entries.all (fun kv =>
        match kv.2.until_ts with
        | some none => false
        | _ => true)
    then entries.map (fun kv =>
      (kv.1, { until_ts := kv.2.until_ts.bind id, reason := kv.2.reason }))
    else []

/-- Crawler `is_site_dead` (lines 226-239): returns the verdict, the updated
in-memory deadlist, and the trace of ledgers handed to `save_deadlist`
during the call (at most one: the pruned ledger). -/
def is_site_dead (deadlist : List (String × DeadEntry)) (site_key : String)
    (now : Int) :
    Bool × List (String × DeadEntry) × List (List (String × DeadEntry)) :=
  match alist_lookup deadlist site_key with
  | none => (false, deadlist, [])
  | some entry =>
    match entry.until_ts with
    | none => (false, deadlist, [])
    | some u =>
      if now < u then (true, deadlist, [])
      else
        let pruned := alist_remove deadlist site_key
        (false, pruned, [pruned])

/-- Crawler `mark_site_dead` (lines 241-249): insert the entry with
`until = now + retry window` and persist the ledger.  Returns the updated
deadlist and the trace of ledgers saved. -/
def mark_site_dead (deadlist : List (String × DeadEntry)) (site_key : String)
    (reason : String) (retry_hours : Int) (now : Int) :
    List (String × DeadEntry) × List (List (String × DeadEntry)) :=
  let updated := alist_set deadlist site_key
    { until_ts := some (now + retry_hours), reason := reason }
  (updated, [updated])

/-! ## Per-page metadata and version pruning (crawler.py lines 251-275) -/

/-- One `PageRecord` of a site's `metadata.json`.  Absent dict keys are the
defaults: empty file list, falsy archived flag, `none` elsewhere. -/
structure PageMeta where
  files : List String
  archived : Bool
  content_hash : Option String
  status_code : Option Nat
  content_type : Option String
  last_seen_at : Option Int
  last_error : Option String
deriving DecidableEq, Repr

/-- The record `meta["pages"].setdefault(url, {})` creates for a new URL. -/
def emptyPageMeta : PageMeta :=
  { files := [], archived := false, content_hash := none, status_code := none,
    content_type := none, last_seen_at := none, last_error := none }

/-- One iteration of the `while len(files) > max_versions` loop of
`prune_old_versions`: pop the last (oldest) filename from the list;
if the file exists in storage, delete it and record it in `removed`.
The triple is (files, site storage, removed); `fuel` bounds the iteration
count and callers pass the initial list length, which suffices because each
iteration shortens the list by one. -/
def prune_go (max_versions : Nat) :
    Nat → List String × List String × List String →
    List String × List String × List String
  | 0, acc => acc
  | fuel + 1, (files, storage, removed) =>
    if max_versions < files.length then
      let fname := files.getLastD ""
      let rest := files.dropLast
      if storage.contains fname then
        prune_go max_versions fuel
          (rest, storage.filter (fun g => g != fname), removed ++ [fname])
      else
        prune_go max_versions fuel (rest, storage, removed)
    else (files, storage, removed)

/-- `prune_old_versions` (crawler.py lines 252-275): keep at most
`max_versions` files for a non-archived page; if the page is archived, do
not prune.  `site_storage` is the set of snapshot files on disk in the site
directory; the result is the updated page record, the remaining storage and
the list of removed filenames. -/
def prune_old_versions (site_storage : List String) (page_meta : PageMeta)
    (max_versions : Nat) : PageMeta × List String × List String :=
  if page_meta.archived then (page_meta, site_storage, [])
  else
    let r := prune_go max_versions page_meta.files.length
      (page_meta.files, site_storage, [])
    ({ page_meta with files := r.1 }, r.2.1, r.2.2)

/-! ## Content-type test (crawler.py lines 124-131) -/

/-- Boolean substring test on character lists (Python `a in b`). -/
def list_infix_check : List Char → List Char → Bool
  | pat, [] => pat.isEmpty
  | pat, c :: rest => pat.isPrefixOf (c :: rest) || list_infix_check pat rest

/-- `is_html_content_type`: lowercase the Content-Type header value and test
for the two markup content types. -/
def is_html_content_type (ctype : String) : Bool :=
  let c := ctype.toList.map Char.toLower
  list_infix_check "text/html".toList c ||
    list_infix_check "application/xhtml+xml".toList c

/-! ## Crawl engine (crawler.py `crawl_site`, lines 277-408)

The fetch of one URL (the whole `fetch_url` call with its internal retries)
is abstracted by an environment `env : String → FetchOutcome`: `failure`
is the exception propagated after the final attempt, `success` carries the
response status, the Content-Type header value, the sha256 of the body, and
the document's hyperlinks after `urljoin` resolution and the same-host
filter, in document order (the iteration order of `soup.find_all`) and
before the `links = set()` deduplication.  Python set iteration order is
implementation-defined, so the enumeration of that set is a parameter
`set_order`; an enumeration is admissible when it lists exactly the distinct
links. -/

/-- The status codes that mark a page archived (`ARCHIVE_STATUS_CODES`). -/
def ARCHIVE_STATUS_CODES : List Nat := [404, 410]

/-- Outcome of fetching one URL, as seen by the `crawl_site` loop. -/
inductive FetchOutcome where
  | failure (msg : String)
  | success (status : Nat) (content_type : String) (content_hash : String)
      (links : List String)
deriving DecidableEq, Repr

/-- Admissible model of Python set iteration: the enumeration lists exactly
the distinct elements (`py_set_elems` keeps first occurrences), in some
order. -/
def admissible_set_order (f : List String → List String) : Prop :=
  ∀ xs : List String, (f xs).Perm (py_set_elems xs)

/-- Per-site configuration, already resolved against the defaults the way
`crawl_site`'s keyword arguments are. -/
structure SiteConf where
  site_key : String
  max_pages : Nat
  max_depth : Nat
  max_failures : Nat
  retry_hours : Int
  max_versions : Nat
deriving Repr

/-- The mutable state of one `crawl_site` invocation.  `storage` is the set
of snapshot files on disk in the site directory; `meta_saves` and
`dead_saves` record each value handed to `save_metadata` / `save_deadlist`. -/
structure CrawlState where
  to_visit : List (String × Nat)
  visited : List String
  pages_fetched : Nat
  consecutive_failures : Nat
  pages : List (String × PageMeta)
  storage : List String
  deadlist : List (String × DeadEntry)
  meta_saves : List (List (String × PageMeta))
  dead_saves : List (List (String × DeadEntry))
deriving DecidableEq, Repr

/-- Result of one loop iteration: `halted` is a `return` out of
`crawl_site` (site marked dead), `stepped` proceeds to the next iteration. -/
inductive StepResult where
  | halted (s : CrawlState)
  | stepped (s : CrawlState)
deriving DecidableEq, Repr

/-- One iteration of the `while to_visit and pages_fetched < max_pages` loop
of `crawl_site` (lines 308-406).  `now` is the current clock reading and
`fname` the `safe_filename_from_url` result for this iteration's snapshot;
`skip_ext` models the `ext in SKIP_EXT` test on the URL path.  Storage
writes are modelled as succeeding (the `[FILE ERR]` branch is not taken). -/
def crawl_step (conf : SiteConf) (env : String → FetchOutcome)
    (set_order : List String → List String) (skip_ext : String → Bool)
    (now : Int) (fname : String) (s : CrawlState) : StepResult :=
  match s.to_visit with
  | [] => .halted s
  | (url, depth) :: rest =>
    if s.visited.contains url then .stepped { s with to_visit := rest }
    else
      let s1 : CrawlState :=
        { s with to_visit := rest, visited := s.visited ++ [url] }
      if skip_ext url then .stepped s1
      else
        match env url with
        | .failure msg =>
          let pm := (alist_lookup s1.pages url).getD emptyPageMeta
          let pm := { pm with last_error := some msg }
          let pages := alist_set s1.pages url pm
          let cf := s1.consecutive_failures + 1
          let s2 := { s1 with
            pages := pages
            consecutive_failures := cf
            meta_saves := s1.meta_saves ++ [pages] }
          if conf.max_failures ≤ cf then
            let r := mark_site_dead s2.deadlist conf.site_key
              ("consecutive fetch errors (last: " ++ msg ++ ")")
              conf.retry_hours now
            .halted { s2 with deadlist := r.1, dead_saves := s2.dead_saves ++ r.2 }
          else .stepped s2
        | .success status ctype chash links =>
          let pm := (alist_lookup s1.pages url).getD emptyPageMeta
          if ARCHIVE_STATUS_CODES.contains status then
            let pm := { pm with
              archived := true
              last_error := some ("HTTP " ++ toString status)
              last_seen_at := some now }
            let pages := alist_set s1.pages url pm
            let cf := s1.consecutive_failures + 1
            let s2 := { s1 with
              pages := pages
              consecutive_failures := cf
              meta_saves := s1.meta_saves ++ [pages] }
            if conf.max_failures ≤ cf then
              let r := mark_site_dead s2.deadlist conf.site_key
                ("consecutive fetch errors (last: HTTP " ++ toString status ++ ")")
                conf.retry_hours now
              .halted { s2 with deadlist := r.1, dead_saves := s2.dead_saves ++ r.2 }
            else .stepped s2
          else
            let storage := s1.storage ++ [fname]
            let pm := { pm with
              files := fname :: pm.files
              content_hash := some chash
              status_code := some status
              content_type := some ctype
              last_seen_at := some now
              archived := false }
            let pr := prune_old_versions storage pm conf.max_versions
            let pages := alist_set s1.pages url pr.1
            let new_links :=
              if depth < conf.max_depth then
                if is_html_content_type ctype then
                  ((set_order links).filter
                      (fun l => !(s1.visited.contains l))).map
                    (fun l => (l, depth + 1))
                else []
              else []
            .stepped { s1 with
              to_visit := rest ++ new_links
              pages := pages
              storage := pr.2.1
              consecutive_failures := 0
              pages_fetched := s1.pages_fetched + 1
              meta_saves := s1.meta_saves ++ [pages] }

/-- The whole `while` loop of `crawl_site`, driven by fuel.  `clock n` and
`fname_gen n` supply the timestamp and snapshot filename of iteration `n`. -/
def crawl_loop (conf : SiteConf) (env : String → FetchOutcome)
    (set_order : List String → List String) (skip_ext : String → Bool)
    (clock : Nat → Int) (fname_gen : Nat → String) :
    Nat → Nat → CrawlState → CrawlState
  | 0, _, s => s
  | fuel + 1, n, s =>
    if s.to_visit.isEmpty then s
    else if conf.max_pages ≤ s.pages_fetched then s
    else
      match crawl_step conf env set_order skip_ext (clock n) (fname_gen n) s with
      | .halted s' => s'
      | .stepped s' =>
        crawl_loop conf env set_order skip_ext clock fname_gen fuel (n + 1) s'

/-! ## Keyword loading (scooper.py `load_keywords`, lines 36-41) -/

/-- Python `str.strip()`: drop leading and trailing whitespace. -/
def py_strip (l : List Char) : List Char :=
  ((l.dropWhile Char.isWhitespace).reverse.dropWhile Char.isWhitespace).reverse

/-- `load_keywords`: `none` models a missing file (`path.exists()` false).
Otherwise split the text into lines, strip each, and keep the lines that are
non-empty and do not start with the comment character. -/
def load_keywords (file_content : Option (List Char)) : List (List Char) :=
  match file_content with
  | none => []
  | some txt =>
    let lines := (txt.splitOn '\n').map py_strip
    lines.filter (fun l => !l.isEmpty && !(['#'].isPrefixOf l))

/-! ## Snippet extraction (scooper.py `find_snippets`, lines 94-109)

The compiled pattern is `re.escape(keyword)` with `re.IGNORECASE`: a
case-insensitive literal search.  `pattern.finditer` yields the
non-overlapping matches scanning left to right (after a zero-width match the
scan advances by one position). -/

/-- Case-insensitive character comparison (the effect of `re.IGNORECASE` on
a literal pattern). -/
def lower_eq (a b : Char) : Bool := a.toLower == b.toLower

/-- Whether `kw` matches case-insensitively at the head of `rest`. -/
def ci_leading_match : List Char → List Char → Bool
  | [], _ => true
  | _ :: _, [] => false
  | k :: ks, c :: cs => lower_eq k c && ci_leading_match ks cs

/-- The scan of `pattern.finditer(text)`: starting at position `i`, record a
match start whenever the keyword matches there, then continue after the
match (or one position further for a zero-width match).  `fuel` bounds the
scan; `text.length + 1` positions suffice. -/
def ci_find_go (text kw : List Char) : Nat → Nat → List Nat
  | 0, _ => []
  | fuel + 1, i =>
    if i ≤ text.length then
      if ci_leading_match kw (text.drop i) then
        i :: ci_find_go text kw fuel (i + max 1 kw.length)
      else ci_find_go text kw fuel (i + 1)
    else []

/-- Start positions of all matches of `pattern.finditer`, left to right. -/
def ci_find_all (text kw : List Char) : List Nat :=
  ci_find_go text kw (text.length + 1) 0

/-- Python slice `l[a:b]` for `a ≤ b`. -/
def list_slice (l : List Char) (a b : Nat) : List Char :=
  (l.drop a).take (b - a)

/-- Default snippet window (`SNIPPET_CHARS = 120`). -/
def SNIPPET_CHARS : Nat := 120

/-- `find_snippets`: for each match (at most 5), take the slice
`text[max(0, start - chars) : min(len(text), end + chars)]` and re-splice it
as prefix, upcased matched span, suffix, exactly as lines 101-107 do. -/
def find_snippets (text kw : List Char) (chars : Nat) : List (List Char) :=
  ((ci_find_all text kw).take 5).map (fun ms =>
    let mend := ms + kw.length
    let start := ms - chars
    let stop := min (mend + chars) text.length
    let snippet := list_slice text start stop
    (snippet.take (ms - start))
      ++ (list_slice text ms mend).map Char.toUpper
      ++ (snippet.drop (mend - start)))

/-! ## Corpus search (scooper.py `search_keywords_in_files`, lines 111-162)

One searchable file, as produced by `gather_files_to_search`: the site
directory name, the owning page URL, the `urlparse(url).hostname` result,
the file path, the text `extract_text_from_html` recovers from the file's
bytes (reading and extraction are abstracted into the entry), and the page
record's archived flag. -/

structure FileEntry where
  site : String
  url : String
  host : Option String
  fpath : String
  text : List Char
  archived : Bool
deriving DecidableEq, Repr

/-- One hit appended to `results[kw]`. -/
structure Hit where
  site : String
  url : String
  file : String
  archived : Bool
  is_dead : Bool
  snippets : List (List Char)
  found_at : Int
deriving DecidableEq, Repr

/-- The dead-flag computation of scooper.py lines 125-140, on the raw (not
datetime-converted) ledger the scooper loads: a listed key with a falsy
`until` is dead; an unparseable `until` raises inside the `try` and the
`except` branch sets dead; a parseable one is compared against now. -/
def scooper_is_dead (deadlist : List (String × RawDeadEntry))
    (parsed_key : String) (now : Int) : Bool :=
  match alist_lookup deadlist parsed_key with
  | none => false
  | some entry =>
    match entry.until_ts with
    | none => true
    | some none => true
    | some (some t) => decide (now < t)

/-- The body of the `for kw in keywords` loop of
`search_keywords_in_files`: skip empty keywords, compute the snippets, and
append one hit when any snippet was found.  (`results[kw]` exists for every
keyword, so the `none` case is unreachable.) -/
def search_kw_step (now : Int) (entry : FileEntry) (dead : Bool)
    (results : List (List Char × List Hit)) (kw : List Char) :
    List (List Char × List Hit) :=
  if kw.isEmpty then results
  else
    let snippets := find_snippets entry.text kw SNIPPET_CHARS
    if snippets.isEmpty then results
    else
      match alist_lookup results kw with
      | none => results
      | some hits =>
        alist_set results kw (hits ++
          [{ site := entry.site, url := entry.url, file := entry.fpath,
             archived := entry.archived, is_dead := dead,
             snippets := snippets, found_at := now }])

/-- The body of the `for site, url, fpath, page_meta in file_index` loop of
`search_keywords_in_files`: compute the site key (hostname preferred) and
the dead flag, skip files with empty extracted text, and run the inner
keyword loop. -/
def search_file_step (deadlist : List (String × RawDeadEntry)) (now : Int)
    (keywords : List (List Char)) (results : List (List Char × List Hit))
    (entry : FileEntry) : List (List Char × List Hit) :=
  let parsed_key := entry.host.getD entry.site
  let dead := scooper_is_dead deadlist parsed_key now
  if entry.text.isEmpty then results
  else keywords.foldl (search_kw_step now entry dead) results

/-- `search_keywords_in_files`: initialize `results = {k: [] for k in
keywords}` (a dict, so duplicate keywords collapse to their first
occurrence), then fold the per-file step over the corpus index.  The
byte-read of a file is modelled as succeeding. -/
def search_keywords_in_files (deadlist : List (String × RawDeadEntry))
    (now : Int) (keywords : List (List Char)) (file_index : List FileEntry) :
    List (List Char × List Hit) :=
  let init := (py_set_elems keywords).map (fun k => (k, ([] : List Hit)))
  file_index.foldl (search_file_step deadlist now keywords) init

/-! ## Results store and merge (scooper.py lines 164-200) -/

/-- The per-keyword entry of `results.json`. -/
structure KwEntry where
  last_searched_at : Int
  hits : List Hit
deriving DecidableEq, Repr

/-- One history record of `results.json`. -/
structure HistRecord where
  ts : Int
  trigger : String
  updated_keywords : List (List Char)
deriving DecidableEq, Repr

/-- The whole `results.json` document. -/
structure ResultsStore where
  last_run : Option Int
  keywords : List (List Char × KwEntry)
  history : List HistRecord
deriving DecidableEq, Repr

/-- `load_results_file` for a missing or unreadable file. -/
def empty_results_store : ResultsStore :=
  { last_run := none, keywords := [], history := [] }

/-- `update_results_for_keywords` (lines 180-200): replace the entry of every
keyword in `new_results`, stamp `last_run`, push one history record and trim
the history to 100 entries.  The subsequent `atomic_write_json` is modelled
by `atomic_write_json_ops`. -/
def update_results_for_keywords (store : ResultsStore)
    (new_results : List (List Char × List Hit)) (trigger : String)
    (now : Int) : ResultsStore :=
  { last_run := some now
    keywords := new_results.foldl
      (fun m kv => alist_set m kv.1 { last_searched_at := now, hits := kv.2 })
      store.keywords
    history :=
      ({ ts := now, trigger := trigger,
         updated_keywords := new_results.map Prod.fst } :: store.history).take 100 }

/-! ## Watch loop polling (scooper.py `watch_loop`, lines 226-256) -/

/-- Lexicographic comparison of keywords by code point, as Python `sorted`
compares strings. -/
def lex_le : List Char → List Char → Bool
  | [], _ => true
  | _ :: _, [] => false
  | a :: xs, b :: ys => if a == b then lex_le xs ys else decide (a.toNat < b.toNat)

/-- Stable insertion for `sort_kw`. -/
def sort_insert (x : List Char) : List (List Char) → List (List Char)
  | [] => [x]
  | y :: ys => if lex_le x y then x :: y :: ys else y :: sort_insert x ys

/-- Python `sorted` on a list of keywords (insertion sort; Python's sort is
stable, and on the distinct elements given to it stability is moot). -/
def sort_kw : List (List Char) → List (List Char)
  | [] => []
  | x :: xs => sort_insert x (sort_kw xs)

/-- The keyword diff of one poll:
`sorted(list(current_set - last_keywords_set))`.  `last_set` enumerates the
last-observed keyword set. -/
def added_keywords (last_set : List (List Char))
    (current_keywords : List (List Char)) : List (List Char) :=
  sort_kw ((py_set_elems current_keywords).filter (fun k => !(last_set.contains k)))

/-- The `last_run_ts is None or mtime > last_run_ts` test. -/
def marker_newer (last_run_ts : Option Int) (mtime : Int) : Bool :=
  match last_run_ts with
  | none => true
  | some t => decide (t < mtime)

/-- One iteration of the polling `while True` of `watch_loop` (lines
237-256).  Inputs: the loop state (`last_set`, `last_run_ts`), the keyword
file content, the run-complete marker's mtime (`none` = file absent), the
raw ledger, the corpus index, the Python-set enumeration used for
`list(current_set)`, the clock, and the results store on disk.  Returns the
new loop state, the new store, and the keyword batches searched this poll in
order. -/
def watch_poll (last_set : List (List Char)) (last_run_ts : Option Int)
    (keywords_file : Option (List Char)) (marker_mtime : Option Int)
    (deadlist : List (String × RawDeadEntry)) (file_index : List FileEntry)
    (set_order_kw : List (List Char) → List (List Char)) (now : Int)
    (store : ResultsStore) :
    List (List Char) × Option Int × ResultsStore × List (List (List Char)) :=
  let current_keywords := load_keywords keywords_file
  let current_set := py_set_elems current_keywords
  let added := added_keywords last_set current_keywords
  let afterAdd :
      ResultsStore × List (List Char) × List (List (List Char)) :=
    if added.isEmpty then (store, last_set, [])
    else
      let results := search_keywords_in_files deadlist now added file_index
      (update_results_for_keywords store results "new-keywords" now,
       current_set, [added])
  let store1 := afterAdd.1
  let last_set1 := afterAdd.2.1
  let searches1 := afterAdd.2.2
  let afterMarker :
      ResultsStore × Option Int × List (List (List Char)) :=
    match marker_mtime with
    | none => (store1, last_run_ts, [])
    | some mtime =>
      if marker_newer last_run_ts mtime then
        let all_kws := set_order_kw current_set
        if all_kws.isEmpty then (store1, some mtime, [])
        else
          let results := search_keywords_in_files deadlist now all_kws file_index
          (update_results_for_keywords store1 results "crawler-run-complete" now,
           some mtime, [all_kws])
      else (store1, last_run_ts, [])
  (last_set1, afterMarker.2.1, afterMarker.1, searches1 ++ afterMarker.2.2)

/-- Admissible model of Python set iteration over keyword sets
(`list(current_set)`), as `admissible_set_order` is for link sets. -/
def admissible_kw_order (f : List (List Char) → List (List Char)) : Prop :=
  ∀ xs : List (List Char), (f xs).Perm (py_set_elems xs)

/-! ## Claim C1 -/

/-- Claim C1 is false as stated: `save_metadata` performs a single direct
write of the serialized metadata onto the target file, with no temporary
location and no rename, so a concurrent reader can observe a partially
written metadata file.  Concretely, the operation trace of saving a site's
metadata is not of the write-temp-then-rename shape. -/
theorem C1_counterexample :
    ¬ isAtomicReplaceWrite (save_metadata_ops "Source/siteA" "serialized")
        (metadata_path "Source/siteA") := by
  rintro ⟨tmp, content, hne, heq⟩
  simp [save_metadata_ops] at heq

/-- Claim C1, amended: of the three shared-state writers, only the results
store write (`atomic_write_json`) follows the write-to-temporary-then-rename
discipline; `save_metadata` and `save_deadlist` each write the serialized
record directly onto the target path in a single write. -/
theorem C1_amended (path : FPath) (content : String) (site_dir : String)
    (meta_ser ledger_ser : String) (hext : path.ext ≠ ".tmp") :
    isAtomicReplaceWrite (atomic_write_json_ops path content) path ∧
    ¬ isAtomicReplaceWrite (save_metadata_ops site_dir meta_ser)
        (metadata_path site_dir) ∧
    ¬ isAtomicReplaceWrite (save_deadlist_ops ledger_ser) DEAD_FILE := by
  refine ⟨⟨path.with_suffix ".tmp", content, ?_, rfl⟩, ?_, ?_⟩
  · intro h
    exact hext (congrArg FPath.ext h).symm
  · rintro ⟨tmp, c, hne, heq⟩
    simp [save_metadata_ops] at heq
  · rintro ⟨tmp, c, hne, heq⟩
    simp [save_deadlist_ops] at heq

/-- Witness for C1_amended at the concrete results-store path. -/
theorem C1_witness :
    isAtomicReplaceWrite
      (atomic_write_json_ops { stem := "results", ext := ".json" } "data")
      { stem := "results", ext := ".json" } :=
  (C1_amended { stem := "results", ext := ".json" } "data" "Source/siteA"
    "m" "d" (by decide)).1

/-! ## Claim C4 -/

/-- Claim C4: `is_site_dead` reports a site dead exactly when an entry for
the key exists and the current time is strictly before its until timestamp;
and called on an entry whose until timestamp has passed, it removes the
entry and persists the pruned ledger before returning false. -/
theorem C4_is_site_dead_spec (deadlist : List (String × DeadEntry))
    (site_key : String) (now : Int) :
    ((is_site_dead deadlist site_key now).1 = true ↔
      ∃ e u, alist_lookup deadlist site_key = some e ∧
        e.until_ts = some u ∧ now < u) ∧
    (∀ e u, alist_lookup deadlist site_key = some e → e.until_ts = some u →
      u ≤ now →
      is_site_dead deadlist site_key now =
        (false, alist_remove deadlist site_key,
          [alist_remove deadlist site_key])) := by
  constructor
  · cases hl : alist_lookup deadlist site_key with
    | none => simp [is_site_dead, hl]
    | some e =>
      cases hu : e.until_ts with
      | none => simp [is_site_dead, hl, hu]
      | some u =>
        by_cases h : now < u
        · simp [is_site_dead, hl, hu, h]
        · simp [is_site_dead, hl, hu, h]
  · intro e u hl hu hle
    have hnl : ¬ now < u := not_lt.mpr hle
    simp [is_site_dead, hl, hu, hnl]

/-- Concrete ledger used by the C4 witness. -/
def c4_ledger : List (String × DeadEntry) :=
  [("siteA", { until_ts := some 5, reason := "down" })]

/-- Witness for C4_is_site_dead_spec: an entry whose window elapsed is
pruned and the pruned ledger persisted. -/
theorem C4_witness :
    is_site_dead c4_ledger "siteA" 9 =
      (false, alist_remove c4_ledger "siteA",
        [alist_remove c4_ledger "siteA"]) :=
  (C4_is_site_dead_spec c4_ledger "siteA" 9).2
    { until_ts := some 5, reason := "down" } 5 (by decide) rfl (by decide)

/-! ## Claim C6 -/

/-- Concrete byte decoder used in C6 instances (each byte as one character;
the choice of decoder is irrelevant to the statements). -/
def latin1_decode (bs : List Nat) : List Char :=
  bs.map (fun b => Char.ofNat b)

/-- Claim C6 is false in its truncation-flag part: the record returned by
`fetch_url` has only the fields status_code, headers, content and text, and
carries no truncated flag.  Concretely, a fetch that the byte cap cut short
mid-read (a second body chunk was never consumed) and a fetch whose body was
consumed in full return equal records, so no component of the returned
record distinguishes a truncated fetch from a complete one. -/
theorem C6_counterexample :
    fetch_url_result latin1_decode 200 [] [[1, 2, 3, 4], [5, 6, 7, 8]] 4 =
      fetch_url_result latin1_decode 200 [] [[1, 2, 3, 4]] 4 ∧
    (fetch_url_result latin1_decode 200 [] [[1, 2, 3, 4], [5, 6, 7, 8]] 4).content ≠
      [[1, 2, 3, 4], [5, 6, 7, 8]].flatten ∧
    (fetch_url_result latin1_decode 200 [] [[1, 2, 3, 4]] 4).content =
      [[1, 2, 3, 4]].flatten := by
  refine ⟨by decide, by decide, by decide⟩

/-- Claim C6, amended: a successful fetch returns a record of status,
headers, body bytes and decoded text; when the byte cap is reached mid-read
the fetcher stops reading — chunks after the cap-hitting one never affect
the result — and returns the bytes captured so far with the original status
code preserved.  No truncated flag is included in the record. -/
theorem C6_amended (decode : List Nat → List Char) (status : Nat)
    (headers : List (String × String)) (pre post : List (List Nat))
    (max_bytes : Nat) (h : cap_hit max_bytes 0 pre = true) :
    fetch_url_result decode status headers (pre ++ post) max_bytes =
      fetch_url_result decode status headers pre max_bytes ∧
    (fetch_url_result decode status headers (pre ++ post) max_bytes).status_code
      = status ∧
    (fetch_url_result decode status headers (pre ++ post) max_bytes).content =
      (read_body_loop max_bytes 0 pre).flatten := by
  have hs := read_body_loop_stops pre 0 h post
  exact ⟨by simp [fetch_url_result, hs], rfl, by simp [fetch_url_result, hs]⟩

/-- Witness for C6_amended on a concrete capped stream. -/
theorem C6_witness :
    fetch_url_result latin1_decode 200 [] ([[9, 9, 9, 9]] ++ [[1]]) 4 =
      fetch_url_result latin1_decode 200 [] [[9, 9, 9, 9]] 4 :=
  (C6_amended latin1_decode 200 [] [[9, 9, 9, 9]] [[1]] 4 (by decide)).1

/-! ## Claim C9 -/

/-- Claim C9 is false in its distinctness part: `load_keywords` performs no
deduplication, so a keyword file containing the same line twice loads a
sequence in which that line appears twice. -/
theorem C9_counterexample :
    load_keywords (some ['f', 'o', 'o', '\n', 'f', 'o', 'o']) =
      [['f', 'o', 'o'], ['f', 'o', 'o']] ∧
    ¬ (load_keywords (some ['f', 'o', 'o', '\n', 'f', 'o', 'o'])).Nodup := by
  refine ⟨by decide, by decide⟩

/-- Claim C9, amended: the loaded keyword sequence is the sequence of
stripped file lines with blank lines and comment lines dropped, in file
order (a sublist of the stripped lines); every loaded keyword is non-empty
and does not start with the comment character; and each qualifying line is
loaded with its full multiplicity — duplicates are preserved, not removed. -/
theorem C9_amended (txt : List Char) :
    (load_keywords (some txt)).Sublist ((txt.splitOn '\n').map py_strip) ∧
    (∀ l ∈ load_keywords (some txt), l ≠ [] ∧ ¬ (['#'].isPrefixOf l)) ∧
    (∀ l : List Char,
      (load_keywords (some txt)).count l =
        if l ≠ [] ∧ ¬ (['#'].isPrefixOf l)
        then ((txt.splitOn '\n').map py_strip).count l
        else 0) := by
  refine ⟨List.filter_sublist _, ?_, ?_⟩
  · intro l hl
    simp only [load_keywords, List.mem_filter] at hl
    obtain ⟨-, hcond⟩ := hl
    simp only [Bool.and_eq_true, Bool.not_eq_true'] at hcond
    refine ⟨?_, ?_⟩
    · intro hnil
      rw [hnil] at hcond
      simp at hcond
    · intro hpre
      have := hcond.2
      rw [hpre] at this
      simp at this
  · intro l
    by_cases hc : l ≠ [] ∧ ¬ (['#'].isPrefixOf l)
    · rw [if_pos hc]
      unfold load_keywords
      apply List.count_filter
      have h1 : l.isEmpty = false := by
        cases l with
        | nil => exact absurd rfl hc.1
        | cons c cs => rfl
      have h2 : (['#'].isPrefixOf l) = false := by
        cases h : ['#'].isPrefixOf l with
        | false => rfl
        | true => exact absurd h hc.2
      simp [h1, h2]
    · rw [if_neg hc]
      rw [List.count_eq_zero]
      intro hmem
      simp only [load_keywords, List.mem_filter] at hmem
      obtain ⟨-, hcond⟩ := hmem
      simp only [Bool.and_eq_true, Bool.not_eq_true'] at hcond
      apply hc
      refine ⟨?_, ?_⟩
      · intro hnil; rw [hnil] at hcond; simp at hcond
      · intro hpre; rw [hpre] at hcond; simp at hcond

/-- Witness for C9_amended: the loaded keyword of a concrete file is
non-blank and not a comment. -/
theorem C9_witness :
    ['k', 'w'] ≠ ([] : List Char) ∧ ¬ (['#'].isPrefixOf ['k', 'w']) :=
  (C9_amended ['#', 'c', '\n', 'k', 'w']).2.1 ['k', 'w'] (by decide)

/-! ## Claim C8 -/

theorem ci_leading_match_length {kw l : List Char}
    (h : ci_leading_match kw l = true) : kw.length ≤ l.length := by
  induction kw generalizing l with
  | nil => simp
  | cons k ks ih =>
    cases l with
    | nil => simp [ci_leading_match] at h
    | cons c cs =>
      simp only [ci_leading_match, Bool.and_eq_true] at h
      simpa using Nat.succ_le_succ (ih h.2)

theorem ci_find_go_mem {text kw : List Char} :
    ∀ fuel i p, p ∈ ci_find_go text kw fuel i →
      p ≤ text.length ∧ ci_leading_match kw (text.drop p) = true := by
  intro fuel
  induction fuel with
  | zero => intro i p h; simp [ci_find_go] at h
  | succ n ih =>
    intro i p h
    simp only [ci_find_go] at h
    by_cases hi : i ≤ text.length
    · simp only [hi, if_true] at h
      by_cases hm : ci_leading_match kw (text.drop i) = true
      · simp only [hm, if_true] at h
        rcases List.mem_cons.mp h with rfl | h'
        · exact ⟨hi, hm⟩
        · exact ih _ p h'
      · simp only [hm, if_false] at h
        exact ih _ p h
    · simp [hi] at h

theorem list_slice_length (text : List Char) (a b : Nat) :
    (list_slice text a b).length = min (b - a) (text.length - a) := by
  simp [list_slice]

theorem list_slice_take (text : List Char) (start ms stop : Nat)
    (h2 : ms ≤ stop) :
    (list_slice text start stop).take (ms - start) = list_slice text start ms := by
  simp only [list_slice, List.take_take]
  congr 1
  omega

theorem list_slice_drop (text : List Char) (start mend stop : Nat)
    (h1 : start ≤ mend) :
    (list_slice text start stop).drop (mend - start) = list_slice text mend stop := by
  have ha : start + (mend - start) = mend := by omega
  have hb : stop - start - (mend - start) = stop - mend := by omega
  simp only [list_slice, List.drop_take, List.drop_drop, ha, hb]

/-- Claim C8: every snippet returned by `find_snippets` is the slice of the
text extending exactly min(window, characters available) characters before
the match start and after the match end, with the matched span upcased in
the middle; and at most 5 snippets are returned per file. -/
theorem C8_find_snippets_spec (text kw : List Char) (chars : Nat) :
    (find_snippets text kw chars).length ≤ 5 ∧
    ∀ s ∈ find_snippets text kw chars, ∃ p,
      p ∈ ci_find_all text kw ∧ p + kw.length ≤ text.length ∧
      s = list_slice text (p - chars) p
          ++ (list_slice text p (p + kw.length)).map Char.toUpper
          ++ list_slice text (p + kw.length)
              (min (p + kw.length + chars) text.length) ∧
      (list_slice text (p - chars) p).length = min chars p ∧
      (list_slice text (p + kw.length)
          (min (p + kw.length + chars) text.length)).length
        = min chars (text.length - (p + kw.length)) := by
  constructor
  · have : (find_snippets text kw chars).length =
        min ((ci_find_all text kw).length) 5 := by
      simp [find_snippets, List.length_take, Nat.min_comm]
    omega
  · intro s hs
    simp only [find_snippets, List.mem_map] at hs
    obtain ⟨p, hp, hbody⟩ := hs
    have hp' : p ∈ ci_find_all text kw := List.mem_of_mem_take hp
    obtain ⟨hple, hmatch⟩ := ci_find_go_mem _ _ p hp'
    have hkle : kw.length ≤ (text.drop p).length := ci_leading_match_length hmatch
    have hbound : p + kw.length ≤ text.length := by
      simp only [List.length_drop] at hkle
      omega
    refine ⟨p, hp', hbound, ?_, ?_, ?_⟩
    · rw [← hbody]
      have e1 : (list_slice text (p - chars)
            (min (p + kw.length + chars) text.length)).take (p - (p - chars)) =
          list_slice text (p - chars) p :=
        list_slice_take text (p - chars) p _ (by omega)
      have e2 : (list_slice text (p - chars)
            (min (p + kw.length + chars) text.length)).drop
              (p + kw.length - (p - chars)) =
          list_slice text (p + kw.length)
            (min (p + kw.length + chars) text.length) :=
        list_slice_drop text (p - chars) (p + kw.length) _ (by omega)
      rw [e1, e2]
    · rw [list_slice_length]; omega
    · rw [list_slice_length]; omega

/-- Witness for C8_find_snippets_spec on a concrete text and keyword. -/
theorem C8_witness : ∃ p,
    p ∈ ci_find_all ['x', 'k', 'w', 'y'] ['K', 'W'] ∧
    p + (['K', 'W'] : List Char).length ≤ (['x', 'k', 'w', 'y'] : List Char).length ∧
    ['x', 'K', 'W', 'y'] = list_slice ['x', 'k', 'w', 'y'] (p - 1) p
        ++ (list_slice ['x', 'k', 'w', 'y'] p
            (p + (['K', 'W'] : List Char).length)).map Char.toUpper
        ++ list_slice ['x', 'k', 'w', 'y'] (p + (['K', 'W'] : List Char).length)
            (min (p + (['K', 'W'] : List Char).length + 1)
              (['x', 'k', 'w', 'y'] : List Char).length) ∧
    (list_slice ['x', 'k', 'w', 'y'] (p - 1) p).length = min 1 p ∧
    (list_slice ['x', 'k', 'w', 'y'] (p + (['K', 'W'] : List Char).length)
        (min (p + (['K', 'W'] : List Char).length + 1)
          (['x', 'k', 'w', 'y'] : List Char).length)).length
      = min 1 ((['x', 'k', 'w', 'y'] : List Char).length
          - (p + (['K', 'W'] : List Char).length)) :=
  (C8_find_snippets_spec ['x', 'k', 'w', 'y'] ['K', 'W'] 1).2
    ['x', 'K', 'W', 'y'] (by decide)


/-! ## Claim C2 -/

/-- Extract the state carried by a step result. -/
def step_state : StepResult → CrawlState
  | .halted s => s
  | .stepped s => s

/-- Claim C2: on a fetched URL whose status is in the archive set, the crawl
loop marks the page archived, records the status (in the last-error field)
and the timestamp, persists the metadata, enqueues no links, does not count
a fetched page, and increments the consecutive-failure counter — the same
counter a transient fetch error increments (final conjunct); if the counter
thereby reaches the failure threshold the site is marked dead, the ledger
is persisted, and the crawl loop returns at once, discarding the remaining
frontier. -/
theorem C2_archive_step (conf : SiteConf) (env : String → FetchOutcome)
    (set_order : List String → List String) (skip_ext : String → Bool)
    (now : Int) (fname : String) (s : CrawlState) (url : String) (depth : Nat)
    (rest : List (String × Nat)) (status : Nat) (ctype chash : String)
    (links : List String)
    (hv : s.to_visit = (url, depth) :: rest)
    (hnv : s.visited.contains url = false)
    (hse : skip_ext url = false)
    (henv : env url = .success status ctype chash links)
    (harch : ARCHIVE_STATUS_CODES.contains status = true) :
    ∃ s',
      crawl_step conf env set_order skip_ext now fname s =
        (if conf.max_failures ≤ s.consecutive_failures + 1
         then StepResult.halted s' else StepResult.stepped s') ∧
      alist_lookup s'.pages url = some
        { (alist_lookup s.pages url).getD emptyPageMeta with
            archived := true
            last_error := some ("HTTP " ++ toString status)
            last_seen_at := some now } ∧
      s'.meta_saves = s.meta_saves ++ [s'.pages] ∧
      s'.to_visit = rest ∧
      s'.consecutive_failures = s.consecutive_failures + 1 ∧
      s'.pages_fetched = s.pages_fetched ∧
      s'.storage = s.storage ∧
      (conf.max_failures ≤ s.consecutive_failures + 1 →
        alist_lookup s'.deadlist conf.site_key = some
          { until_ts := some (now + conf.retry_hours)
            reason := "consecutive fetch errors (last: HTTP "
              ++ toString status ++ ")" } ∧
        s'.dead_saves = s.dead_saves ++ [s'.deadlist] ∧
        (s.pages_fetched < conf.max_pages →
          ∀ (fuel n : Nat) (clock : Nat → Int) (fname_gen : Nat → String),
            clock n = now → fname_gen n = fname →
            crawl_loop conf env set_order skip_ext clock fname_gen
              (fuel + 1) n s = s')) ∧
      (s.consecutive_failures + 1 < conf.max_failures →
        s'.deadlist = s.deadlist ∧ s'.dead_saves = s.dead_saves) ∧
      (∀ (env' : String → FetchOutcome) (msg : String),
        env' url = .failure msg →
        (step_state (crawl_step conf env' set_order skip_ext now fname s)).consecutive_failures
          = s.consecutive_failures + 1) := by
  have hnv' : url ∉ s.visited := by simpa using hnv
  have harch' : status ∈ ARCHIVE_STATUS_CODES := by simpa using harch
  have hfail : ∀ (env' : String → FetchOutcome) (msg : String),
      env' url = .failure msg →
      (step_state (crawl_step conf env' set_order skip_ext now fname s)).consecutive_failures
        = s.consecutive_failures + 1 := by
    intro env' msg henv'
    by_cases hth : conf.max_failures ≤ s.consecutive_failures + 1
    · simp [crawl_step, hv, hnv', hse, henv', hth, mark_site_dead, step_state]
    · simp [crawl_step, hv, hnv', hse, henv', hth, mark_site_dead, step_state]
  by_cases hth : conf.max_failures ≤ s.consecutive_failures + 1
  · refine ⟨{ s with
        to_visit := rest
        visited := s.visited ++ [url]
        pages := alist_set s.pages url
          { (alist_lookup s.pages url).getD emptyPageMeta with
              archived := true
              last_error := some ("HTTP " ++ toString status)
              last_seen_at := some now }
        consecutive_failures := s.consecutive_failures + 1
        meta_saves := s.meta_saves ++ [alist_set s.pages url
          { (alist_lookup s.pages url).getD emptyPageMeta with
              archived := true
              last_error := some ("HTTP " ++ toString status)
              last_seen_at := some now }]
        deadlist := alist_set s.deadlist conf.site_key
          { until_ts := some (now + conf.retry_hours)
            reason := "consecutive fetch errors (last: HTTP "
              ++ toString status ++ ")" }
        dead_saves := s.dead_saves ++ [alist_set s.deadlist conf.site_key
          { until_ts := some (now + conf.retry_hours)
            reason := "consecutive fetch errors (last: HTTP "
              ++ toString status ++ ")" }] }, ?_, ?_, rfl, rfl, rfl, rfl, rfl,
        ?_, ?_, hfail⟩
    · simp [crawl_step, hv, hnv', hse, henv, harch', hth, mark_site_dead]
    · exact alist_lookup_set_self _ _ _
    · intro _
      refine ⟨alist_lookup_set_self _ _ _, rfl, ?_⟩
      intro hpf fuel n clock fname_gen hc hfg
      have hguard : ¬ conf.max_pages ≤ s.pages_fetched := by omega
      simp only [crawl_loop, hv, List.isEmpty_cons, Bool.false_eq_true,
        if_false, hguard, hc, hfg]
      simp [crawl_step, hv, hnv', hse, henv, harch', hth, mark_site_dead]
    · intro hlt
      omega
  · refine ⟨{ s with
        to_visit := rest
        visited := s.visited ++ [url]
        pages := alist_set s.pages url
          { (alist_lookup s.pages url).getD emptyPageMeta with
              archived := true
              last_error := some ("HTTP " ++ toString status)
              last_seen_at := some now }
        consecutive_failures := s.consecutive_failures + 1
        meta_saves := s.meta_saves ++ [alist_set s.pages url
          { (alist_lookup s.pages url).getD emptyPageMeta with
              archived := true
              last_error := some ("HTTP " ++ toString status)
              last_seen_at := some now }] }, ?_, ?_, rfl, rfl, rfl, rfl, rfl,
        ?_, ?_, hfail⟩
    · simp [crawl_step, hv, hnv', hse, henv, harch', hth, mark_site_dead]
    · exact alist_lookup_set_self _ _ _
    · intro h
      exact absurd h hth
    · intro _
      exact ⟨rfl, rfl⟩

/-- First-occurrence enumeration of a Python set of links (one admissible
iteration order). -/
def first_order : List String → List String := fun xs => py_set_elems xs

/-- Reversed enumeration of a Python set of links (another admissible
iteration order). -/
def rev_order : List String → List String := fun xs => (py_set_elems xs).reverse

/-- A URL-path extension test that never skips. -/
def no_skip : String → Bool := fun _ => false

/-- Concrete site configuration for the C2 witness, with failure threshold 1. -/
def w2_conf : SiteConf :=
  { site_key := "host", max_pages := 10, max_depth := 2, max_failures := 1,
    retry_hours := 24, max_versions := 3 }

/-- Environment in which every URL answers HTTP 404. -/
def w2_env : String → FetchOutcome := fun _ => .success 404 "" "h" []

/-- Fresh crawl state with a one-URL frontier. -/
def w2_state : CrawlState :=
  { to_visit := [("u", 0)], visited := [], pages_fetched := 0,
    consecutive_failures := 0, pages := [], storage := [], deadlist := [],
    meta_saves := [], dead_saves := [] }

/-- Witness for C2_archive_step: a 404 on a fresh site with threshold 1
halts the crawl with the site marked dead and the frontier discarded. -/
theorem C2_witness :
    ∃ s', crawl_step w2_conf w2_env first_order no_skip 0 "f" w2_state =
        StepResult.halted s' ∧
      alist_lookup s'.deadlist "host" = some
        { until_ts := some ((0 : Int) + w2_conf.retry_hours)
          reason := "consecutive fetch errors (last: HTTP "
            ++ toString 404 ++ ")" } ∧
      s'.to_visit = [] := by
  obtain ⟨s', h1, h2, h3, h4, h5, h6, h7, h8, h9, h10⟩ :=
    C2_archive_step w2_conf w2_env first_order no_skip 0 "f" w2_state
      "u" 0 [] 404 "" "h" [] rfl rfl rfl rfl (by decide)
  have hth : w2_conf.max_failures ≤ w2_state.consecutive_failures + 1 := by decide
  rw [if_pos hth] at h1
  obtain ⟨hd1, hd2, hd3⟩ := h8 hth
  exact ⟨s', h1, hd1, h4⟩

/-! ## Claim C7 -/

/-- Claim C7, amended: the frontier is strict FIFO — each iteration consumes
the head and a success appends its discovered links at the tail, at depth+1;
an already-visited head is skipped with nothing enqueued (cross-page
duplicates die at the visited check).  But the links of one page are first
collapsed into a Python set and enqueued in the set's enumeration order:
under any admissible enumeration the enqueued URLs are a permutation of the
distinct links filtered by the visited set, not the insertion order of
first occurrence. -/
theorem C7_fifo_enqueue (conf : SiteConf) (env : String → FetchOutcome)
    (set_order : List String → List String) (skip_ext : String → Bool)
    (now : Int) (fname : String) (s : CrawlState) (url : String) (depth : Nat)
    (rest : List (String × Nat)) (status : Nat) (ctype chash : String)
    (links : List String)
    (hadm : admissible_set_order set_order)
    (hv : s.to_visit = (url, depth) :: rest)
    (hnv : s.visited.contains url = false)
    (hse : skip_ext url = false)
    (henv : env url = .success status ctype chash links)
    (harch : ARCHIVE_STATUS_CODES.contains status = false) :
    ∃ enq,
      (∃ s', crawl_step conf env set_order skip_ext now fname s =
        StepResult.stepped s') ∧
      (step_state (crawl_step conf env set_order skip_ext now fname s)).to_visit
        = rest ++ enq ∧
      (∀ x ∈ enq, x.2 = depth + 1) ∧
      ((depth < conf.max_depth ∧ is_html_content_type ctype = true) →
        (enq.map Prod.fst).Perm
          ((py_set_elems links).filter (fun l => !((s.visited ++ [url]).contains l)))) ∧
      ((¬ (depth < conf.max_depth ∧ is_html_content_type ctype = true)) →
        enq = []) ∧
      (step_state (crawl_step conf env set_order skip_ext now fname s)).visited
        = s.visited ++ [url] ∧
      (∀ (s2 : CrawlState) (url2 : String) (d2 : Nat)
          (r2 : List (String × Nat)),
        s2.to_visit = (url2, d2) :: r2 → s2.visited.contains url2 = true →
        crawl_step conf env set_order skip_ext now fname s2 =
          StepResult.stepped { s2 with to_visit := r2 }) := by
  have hnv' : url ∉ s.visited := by simpa using hnv
  have harch' : status ∉ ARCHIVE_STATUS_CODES := by simpa using harch
  refine ⟨(if depth < conf.max_depth then
      if is_html_content_type ctype then
        ((set_order links).filter
            (fun l => !((s.visited ++ [url]).contains l))).map
          (fun l => (l, depth + 1))
      else []
    else []), ?_, ?_, ?_, ?_, ?_, ?_, ?_⟩
  · refine ⟨step_state (crawl_step conf env set_order skip_ext now fname s), ?_⟩
    simp [crawl_step, hv, hnv', hse, henv, harch', step_state]
  · simp [crawl_step, hv, hnv', hse, henv, harch', step_state]
  · intro x hx
    by_cases h1 : depth < conf.max_depth
    · by_cases h2 : is_html_content_type ctype
      · simp only [h1, if_true, h2, List.mem_map] at hx
        obtain ⟨l, -, rfl⟩ := hx
        rfl
      · simp [h1, h2] at hx
    · simp [h1] at hx
  · rintro ⟨h1, h2⟩
    simp only [h1, if_true, h2, List.map_map]
    have hmapfst :
        (Prod.fst ∘ fun l => (l, depth + 1)) = fun l : String => l := rfl
    rw [hmapfst]
    simp only [List.map_id']
    exact List.Perm.filter _ (hadm links)
  · intro hne
    by_cases h1 : depth < conf.max_depth
    · by_cases h2 : is_html_content_type ctype
      · exact absurd ⟨h1, h2⟩ hne
      · simp [h1, h2]
    · simp [h1]
  · simp [crawl_step, hv, hnv', hse, henv, harch', step_state]
  · intro s2 url2 d2 r2 hv2 hc2
    have hc2' : url2 ∈ s2.visited := by simpa using hc2
    simp [crawl_step, hv2, hc2']

/-- Configuration for the C7 counterexample and witness. -/
def c7_conf : SiteConf :=
  { site_key := "host", max_pages := 10, max_depth := 2, max_failures := 3,
    retry_hours := 24, max_versions := 3 }

/-- Environment for the C7 counterexample: the seed page's hyperlinks in
document order are b, a, b (first occurrences: b then a). -/
def c7_env : String → FetchOutcome := fun u =>
  if u == "s" then .success 200 "text/html" "h" ["b", "a", "b"]
  else .success 200 "text/html" "h" []

/-- Fresh crawl state whose frontier holds the seed page. -/
def c7_state : CrawlState :=
  { to_visit := [("s", 0)], visited := [], pages_fetched := 0,
    consecutive_failures := 0, pages := [], storage := [], deadlist := [],
    meta_saves := [], dead_saves := [] }

/-- Claim C7 is false in its ordering and determinism parts: the links of a
page go through a Python set whose iteration order is implementation-
defined.  Both the first-occurrence enumeration and the reversed enumeration
are admissible set orders, yet on a page whose links occur in order b, a, b
they enqueue [b, a] and [a, b] respectively — so the enqueue order is not
the insertion order of first occurrence, and the fetch order is not a
function of the site's inputs.  (The page's duplicate link b is also
collapsed by the set itself, with the visited set playing no part.) -/
theorem C7_counterexample :
    admissible_set_order first_order ∧
    admissible_set_order rev_order ∧
    py_set_elems (["b", "a", "b"] : List String) = ["b", "a"] ∧
    (step_state (crawl_step c7_conf c7_env first_order no_skip 0 "f0"
        c7_state)).to_visit = [("b", 1), ("a", 1)] ∧
    (step_state (crawl_step c7_conf c7_env rev_order no_skip 0 "f0"
        c7_state)).to_visit = [("a", 1), ("b", 1)] ∧
    ([("a", 1), ("b", 1)] : List (String × Nat)) ≠ [("b", 1), ("a", 1)] := by
  refine ⟨fun xs => List.Perm.refl _, fun xs => List.reverse_perm _,
    by decide, by decide, by decide, by decide⟩

/-- Witness for C7_fifo_enqueue at the concrete seed crawl. -/
theorem C7_witness :
    ∃ enq,
      (∃ s', crawl_step c7_conf c7_env rev_order no_skip 0 "f0" c7_state =
        StepResult.stepped s') ∧
      (step_state (crawl_step c7_conf c7_env rev_order no_skip 0 "f0"
        c7_state)).to_visit = [] ++ enq ∧
      (∀ x ∈ enq, x.2 = 0 + 1) := by
  obtain ⟨enq, h1, h2, h3, -⟩ :=
    C7_fifo_enqueue c7_conf c7_env rev_order no_skip 0 "f0" c7_state
      "s" 0 [] 200 "text/html" "h" ["b", "a", "b"]
      (fun xs => List.reverse_perm _) rfl rfl rfl (by decide) (by decide)
  exact ⟨enq, h1, h2, h3⟩

/-! ## Claim C3 -/

theorem alist_set_mem {κ β : Type} [BEq κ] :
    ∀ (m : List (κ × β)) (k : κ) (v : β) (x : κ × β),
      x ∈ alist_set m k v → x = (k, v) ∨ x ∈ m := by
  intro m
  induction m with
  | nil =>
    intro k v x hx
    simp [alist_set] at hx
    exact Or.inl hx
  | cons p rest ih =>
    intro k v x hx
    by_cases h : p.fst == k
    · simp only [alist_set, h, if_true] at hx
      rcases List.mem_cons.mp hx with rfl | hm
      · exact Or.inl rfl
      · exact Or.inr (List.mem_cons_of_mem _ hm)
    · simp only [alist_set, h, if_false] at hx
      rcases List.mem_cons.mp hx with rfl | hm
      · exact Or.inr (List.mem_cons_self _ _)
      · rcases ih k v x hm with h1 | h2
        · exact Or.inl h1
        · exact Or.inr (List.mem_cons_of_mem _ h2)

theorem dropLast_append_getLastD :
    ∀ (l : List String) (d : String), l ≠ [] →
      l.dropLast ++ [l.getLastD d] = l := by
  intro l
  induction l with
  | nil => intro d h; exact absurd rfl h
  | cons a t ih =>
    intro d _
    cases t with
    | nil => simp [List.getLastD]
    | cons b t2 =>
      have h2 := ih a (by simp)
      simp only [List.getLastD_cons] at h2 ⊢
      simp only [List.dropLast_cons₂, List.cons_append]
      rw [h2]

theorem prune_go_storage_sub (maxv : Nat) :
    ∀ (fuel : Nat) (files storage removed : List String),
      (prune_go maxv fuel (files, storage, removed)).2.1 ⊆ storage := by
  intro fuel
  induction fuel with
  | zero => intro f st r; simp [prune_go]
  | succ n ih =>
    intro f st r
    simp only [prune_go]
    by_cases hlen : maxv < f.length
    · simp only [hlen, if_true]
      by_cases hc : st.contains (f.getLastD "") = true
      · simp only [hc, if_true]
        exact (ih _ _ _).trans (List.filter_sublist _).subset
      · simp only [hc, if_false]
        exact ih _ _ _
    · simp [hlen]

theorem prune_go_len (maxv : Nat) :
    ∀ (fuel : Nat) (files storage removed : List String),
      files.length ≤ maxv + fuel →
      (prune_go maxv fuel (files, storage, removed)).1.length ≤ maxv := by
  intro fuel
  induction fuel with
  | zero => intro f st r h; simpa [prune_go] using by omega
  | succ n ih =>
    intro f st r h
    simp only [prune_go]
    by_cases hlen : maxv < f.length
    · simp only [hlen, if_true]
      have hdl : f.dropLast.length ≤ maxv + n := by
        simp only [List.length_dropLast]
        omega
      by_cases hc : st.contains (f.getLastD "") = true
      · simp only [hc, if_true]
        exact ih _ _ _ hdl
      · simp only [hc, if_false]
        exact ih _ _ _ hdl
    · simp only [hlen, if_false]
      omega

theorem prune_go_evicted (maxv : Nat) :
    ∀ (fuel : Nat) (files storage removed : List String) (g : String),
      g ∈ files →
      g ∉ (prune_go maxv fuel (files, storage, removed)).1 →
      g ∉ (prune_go maxv fuel (files, storage, removed)).2.1 := by
  intro fuel
  induction fuel with
  | zero =>
    intro f st r g hg hng
    simp only [prune_go] at hng
    exact absurd hg hng
  | succ n ih =>
    intro f st r g hg hng
    simp only [prune_go] at hng ⊢
    by_cases hlen : maxv < f.length
    · simp only [hlen, if_true] at hng ⊢
      have hfne : f ≠ [] := by
        intro h0
        rw [h0] at hlen
        simp at hlen
      have hsplit : f.dropLast ++ [f.getLastD ""] = f :=
        dropLast_append_getLastD f "" hfne
      have hgmem : g ∈ f.dropLast ∨ g = f.getLastD "" := by
        rw [← hsplit] at hg
        rcases List.mem_append.mp hg with h1 | h2
        · exact Or.inl h1
        · exact Or.inr (List.mem_singleton.mp h2)
      by_cases hc : st.contains (f.getLastD "") = true
      · simp only [hc, if_true] at hng ⊢
        rcases hgmem with h1 | h2
        · exact ih _ _ _ g h1 hng
        · intro hmem
          have hsub := prune_go_storage_sub maxv n f.dropLast
            (st.filter (fun x => x != f.getLastD "")) (r ++ [f.getLastD ""])
          have := hsub hmem
          rw [List.mem_filter] at this
          rw [h2] at this
          simp at this
      · simp only [hc, if_false] at hng ⊢
        rcases hgmem with h1 | h2
        · exact ih _ _ _ g h1 hng
        · intro hmem
          have hsub := prune_go_storage_sub maxv n f.dropLast st
            (r : List String)
          have hin := hsub hmem
          rw [h2] at hin
          have : st.contains (f.getLastD "") = true := by
            simpa using hin
          exact absurd this hc
    · simp only [hlen, if_false] at hng
      exact absurd hg hng

/-- Invariant: every non-archived page record holds at most `maxv`
snapshot files. -/
def pages_len_inv (maxv : Nat) (pages : List (String × PageMeta)) : Prop :=
  ∀ pr ∈ pages, pr.2.archived = false → pr.2.files.length ≤ maxv

theorem pages_inv_set {maxv : Nat} {m : List (String × PageMeta)}
    {k : String} {v : PageMeta} (hinv : pages_len_inv maxv m)
    (hv : v.archived = false → v.files.length ≤ maxv) :
    pages_len_inv maxv (alist_set m k v) := by
  intro pr hpr
  rcases alist_set_mem _ _ _ _ hpr with rfl | hm
  · exact hv
  · exact hinv pr hm

theorem prune_old_versions_len (st : List String) (pm : PageMeta)
    (maxv : Nat) (h : pm.archived = false) :
    ((prune_old_versions st pm maxv).1).files.length ≤ maxv := by
  simp only [prune_old_versions, h, Bool.false_eq_true, if_false]
  exact prune_go_len maxv pm.files.length pm.files st [] (Nat.le_add_left _ _)

theorem crawl_step_inv (conf : SiteConf) (env : String → FetchOutcome)
    (so : List String → List String) (se : String → Bool)
    (now : Int) (fname : String) (s : CrawlState)
    (hinv : pages_len_inv conf.max_versions s.pages) :
    pages_len_inv conf.max_versions
      (step_state (crawl_step conf env so se now fname s)).pages := by
  cases hv : s.to_visit with
  | nil => simpa [crawl_step, hv, step_state] using hinv
  | cons hd rest =>
    obtain ⟨url, depth⟩ := hd
    by_cases hvis : url ∈ s.visited
    · simpa [crawl_step, hv, hvis, step_state] using hinv
    · by_cases hskip : se url = true
      · simpa [crawl_step, hv, hvis, hskip, step_state] using hinv
      · have hskip' : se url = false := by simpa using hskip
        have hcond : ((alist_lookup s.pages url).getD emptyPageMeta).archived
              = false →
            ((alist_lookup s.pages url).getD emptyPageMeta).files.length
              ≤ conf.max_versions := by
          cases hlk : alist_lookup s.pages url with
          | none => intro _; simp [emptyPageMeta]
          | some pm1 =>
            intro h
            exact hinv (url, pm1) (alist_lookup_mem hlk) (by simpa using h)
        cases henv : env url with
        | failure msg =>
          have hres : (step_state (crawl_step conf env so se now fname s)).pages
              = alist_set s.pages url
                { (alist_lookup s.pages url).getD emptyPageMeta with
                    last_error := some msg } := by
            by_cases hth : conf.max_failures ≤ s.consecutive_failures + 1
            · simp [crawl_step, hv, hvis, hskip', henv, hth, mark_site_dead,
                step_state]
            · simp [crawl_step, hv, hvis, hskip', henv, hth, mark_site_dead,
                step_state]
          rw [hres]
          exact pages_inv_set hinv hcond
        | success status ctype chash links =>
          by_cases harch : status ∈ ARCHIVE_STATUS_CODES
          · have hres :
                (step_state (crawl_step conf env so se now fname s)).pages
                = alist_set s.pages url
                  { (alist_lookup s.pages url).getD emptyPageMeta with
                      archived := true
                      last_error := some ("HTTP " ++ toString status)
                      last_seen_at := some now } := by
              by_cases hth : conf.max_failures ≤ s.consecutive_failures + 1
              · simp [crawl_step, hv, hvis, hskip', henv, harch, hth,
                  mark_site_dead, step_state]
              · simp [crawl_step, hv, hvis, hskip', henv, harch, hth,
                  mark_site_dead, step_state]
            rw [hres]
            refine pages_inv_set hinv ?_
            intro h
            simp at h
          · have hres :
                (step_state (crawl_step conf env so se now fname s)).pages
                = alist_set s.pages url
                  (prune_old_versions (s.storage ++ [fname])
                    { (alist_lookup s.pages url).getD emptyPageMeta with
                        files := fname ::
                          ((alist_lookup s.pages url).getD emptyPageMeta).files
                        content_hash := some chash
                        status_code := some status
                        content_type := some ctype
                        last_seen_at := some now
                        archived := false }
                    conf.max_versions).1 := by
              simp [crawl_step, hv, hvis, hskip', henv, harch, step_state]
            rw [hres]
            refine pages_inv_set hinv ?_
            intro _
            exact prune_old_versions_len _ _ _ rfl

theorem crawl_loop_inv (conf : SiteConf) (env : String → FetchOutcome)
    (so : List String → List String) (se : String → Bool)
    (clock : Nat → Int) (fg : Nat → String) :
    ∀ (fuel n : Nat) (s : CrawlState),
      pages_len_inv conf.max_versions s.pages →
      pages_len_inv conf.max_versions
        (crawl_loop conf env so se clock fg fuel n s).pages := by
  intro fuel
  induction fuel with
  | zero => intro n s h; simpa [crawl_loop] using h
  | succ m ih =>
    intro n s h
    simp only [crawl_loop]
    by_cases h1 : s.to_visit.isEmpty = true
    · simpa [h1] using h
    · simp only [h1, Bool.false_eq_true, if_false]
      by_cases h2 : conf.max_pages ≤ s.pages_fetched
      · simpa [h2] using h
      · simp only [h2, if_false]
        have hs := crawl_step_inv conf env so se (clock n) (fg n) s h
        cases hstep : crawl_step conf env so se (clock n) (fg n) s with
        | halted s' =>
          rw [hstep] at hs
          simpa [step_state] using hs
        | stepped s' =>
          rw [hstep] at hs
          exact ih (n + 1) s' (by simpa [step_state] using hs)

/-- Claim C3, amended.  First conjunct: for non-archived pages the snapshot
list length stays at most max_versions across any run of the crawl loop.
Second: any file pruning evicts from a (non-archived) page record is deleted
from the site storage.  Third: `prune_old_versions` itself never touches an
archived page.  Fourth: an archive-code fetch leaves the page's snapshot
list unchanged.  The original claim's further assertion — that a successful
fetch can never remove a snapshot of a page currently marked archived — is
false (see the counterexample): the success path clears the archived flag
before pruning, so the page is pruned like a live one. -/
theorem C3_amended :
    (∀ (conf : SiteConf) (env : String → FetchOutcome)
       (so : List String → List String) (se : String → Bool)
       (clock : Nat → Int) (fg : Nat → String) (fuel n : Nat)
       (s : CrawlState),
       pages_len_inv conf.max_versions s.pages →
       pages_len_inv conf.max_versions
         (crawl_loop conf env so se clock fg fuel n s).pages) ∧
    (∀ (st : List String) (pm : PageMeta) (maxv : Nat) (g : String),
       pm.archived = false →
       g ∈ pm.files → g ∉ ((prune_old_versions st pm maxv).1).files →
       g ∉ (prune_old_versions st pm maxv).2.1) ∧
    (∀ (st : List String) (pm : PageMeta) (maxv : Nat),
       pm.archived = true → prune_old_versions st pm maxv = (pm, st, [])) ∧
    (∀ (conf : SiteConf) (env : String → FetchOutcome)
       (so : List String → List String) (se : String → Bool)
       (now : Int) (fname : String) (s : CrawlState) (url : String)
       (depth : Nat) (rest : List (String × Nat)) (status : Nat)
       (ctype chash : String) (links : List String),
       s.to_visit = (url, depth) :: rest → s.visited.contains url = false →
       se url = false → env url = .success status ctype chash links →
       ARCHIVE_STATUS_CODES.contains status = true →
       ((alist_lookup (step_state
            (crawl_step conf env so se now fname s)).pages url).getD
          emptyPageMeta).files
         = ((alist_lookup s.pages url).getD emptyPageMeta).files) := by
  refine ⟨?_, ?_, ?_, ?_⟩
  · intro conf env so se clock fg fuel n s h
    exact crawl_loop_inv conf env so se clock fg fuel n s h
  · intro st pm maxv g harch hg hng
    simp only [prune_old_versions, harch, Bool.false_eq_true, if_false]
      at hng ⊢
    exact prune_go_evicted maxv pm.files.length pm.files st [] g hg hng
  · intro st pm maxv harch
    simp [prune_old_versions, harch]
  · intro conf env so se now fname s url depth rest status ctype chash links
      hv hnv hse henv harch
    have hnv' : url ∉ s.visited := by simpa using hnv
    have harch' : status ∈ ARCHIVE_STATUS_CODES := by simpa using harch
    have hres : (step_state (crawl_step conf env so se now fname s)).pages
        = alist_set s.pages url
          { (alist_lookup s.pages url).getD emptyPageMeta with
              archived := true
              last_error := some ("HTTP " ++ toString status)
              last_seen_at := some now } := by
      by_cases hth : conf.max_failures ≤ s.consecutive_failures + 1
      · simp [crawl_step, hv, hnv', hse, henv, harch', hth, mark_site_dead,
          step_state]
      · simp [crawl_step, hv, hnv', hse, henv, harch', hth, mark_site_dead,
          step_state]
    rw [hres, alist_lookup_set_self]
    rfl

/-- Configuration for the C3 counterexample: up to 3 versions per page. -/
def c3_conf : SiteConf :=
  { site_key := "host", max_pages := 10, max_depth := 2, max_failures := 3,
    retry_hours := 24, max_versions := 3 }

/-- Environment answering every URL with a plain HTTP 200 page with no
links. -/
def c3_env : String → FetchOutcome := fun _ => .success 200 "" "h" []

/-- Crawl state holding an archived page with a full (3-element) snapshot
list, about to be fetched successfully. -/
def c3_state : CrawlState :=
  { to_visit := [("u", 0)], visited := [], pages_fetched := 0,
    consecutive_failures := 0,
    pages := [("u",
      { files := ["f1", "f2", "f3"], archived := true, content_hash := none,
        status_code := none, content_type := none, last_seen_at := none,
        last_error := none })],
    storage := ["f1", "f2", "f3"], deadlist := [], meta_saves := [],
    dead_saves := [] }

/-- Claim C3 is false in its archived-page part: a successful fetch of a
page currently marked archived first clears the archived flag and then
prunes, so it does remove elements from the page's snapshot file list.
Concretely, the archived page u with snapshots f1,f2,f3 (max 3) is fetched
successfully; the new snapshot is prepended and the oldest snapshot f3 is
evicted from the list. -/
theorem C3_counterexample :
    (alist_lookup c3_state.pages "u").map PageMeta.archived = some true ∧
    "f3" ∈ ((alist_lookup c3_state.pages "u").getD emptyPageMeta).files ∧
    (∃ s', crawl_step c3_conf c3_env first_order no_skip 0 "new" c3_state =
        StepResult.stepped s' ∧
      "f3" ∉ ((alist_lookup s'.pages "u").getD emptyPageMeta).files) := by
  refine ⟨by decide, by decide, ?_⟩
  exact ⟨step_state (crawl_step c3_conf c3_env first_order no_skip 0 "new"
    c3_state), by decide, by decide⟩

/-- Page record used by the C3 witness. -/
def w3_pm : PageMeta :=
  { files := ["a1", "a2"], archived := false, content_hash := none,
    status_code := none, content_type := none, last_seen_at := none,
    last_error := none }

/-- Witness for C3_amended: a file evicted by pruning a concrete live page
is gone from storage afterwards. -/
theorem C3_witness :
    "a2" ∉ (prune_old_versions ["a1", "a2"] w3_pm 1).2.1 :=
  C3_amended.2.1 ["a1", "a2"] w3_pm 1 "a2" rfl (by decide) (by decide)

/-! ## Claim C10 -/

theorem alist_lookup_map_val {κ β γ : Type} [BEq κ] (g : β → γ) :
    ∀ (l : List (κ × β)) (k : κ),
      alist_lookup (l.map (fun kv => (kv.1, g kv.2))) k
        = (alist_lookup l k).map g := by
  intro l
  induction l with
  | nil => intro k; simp [alist_lookup]
  | cons p rest ih =>
    intro k
    by_cases hk : p.fst == k
    · simp [alist_lookup, List.find?, hk]
    · simpa [alist_lookup, List.find?, hk] using ih k

theorem alist_lookup_keys_const {κ β : Type} [BEq κ] :
    ∀ (ks : List κ) (c : β) (k : κ) (v : β),
      alist_lookup (ks.map (fun x => (x, c))) k = some v → v = c := by
  intro ks c
  induction ks with
  | nil => intro k v h; simp [alist_lookup] at h
  | cons a t ih =>
    intro k v h
    by_cases hk : a == k
    · simp [alist_lookup, List.find?, hk] at h
      exact h.symm
    · simp only [List.map_cons] at h
      rw [show alist_lookup ((a, c) :: t.map (fun x => (x, c))) k
          = alist_lookup (t.map (fun x => (x, c))) k from by
        simp [alist_lookup, List.find?, hk]] at h
      exact ih k v h

/-- Every hit stored anywhere in a search-results map is flagged dead. -/
def hits_all_dead (results : List (List Char × List Hit)) : Prop :=
  ∀ (kw : List Char) (hits : List Hit) (ht : Hit),
    alist_lookup results kw = some hits → ht ∈ hits → ht.is_dead = true

theorem search_kw_step_dead (now : Int) (entry : FileEntry) (dead : Bool)
    (hdead : dead = true) (results : List (List Char × List Hit))
    (kw : List Char) (hres : hits_all_dead results) :
    hits_all_dead (search_kw_step now entry dead results kw) := by
  by_cases h1 : kw.isEmpty = true
  · simpa [search_kw_step, h1] using hres
  · by_cases h2 : (find_snippets entry.text kw SNIPPET_CHARS).isEmpty = true
    · simpa [search_kw_step, h1, h2] using hres
    · cases hlk : alist_lookup results kw with
      | none => simpa [search_kw_step, h1, h2, hlk] using hres
      | some hits =>
        have hstep : search_kw_step now entry dead results kw =
            alist_set results kw (hits ++
              [{ site := entry.site, url := entry.url, file := entry.fpath,
                 archived := entry.archived, is_dead := dead,
                 snippets := find_snippets entry.text kw SNIPPET_CHARS,
                 found_at := now }]) := by
          simp [search_kw_step, h1, h2, hlk]
        rw [hstep]
        intro kw' hits' ht hl hm
        by_cases hk : kw' = kw
        · subst hk
          rw [alist_lookup_set_self] at hl
          have hh : hits' = hits ++
              [{ site := entry.site, url := entry.url, file := entry.fpath,
                 archived := entry.archived, is_dead := dead,
                 snippets := find_snippets entry.text kw' SNIPPET_CHARS,
                 found_at := now }] := by
            exact (Option.some_inj.mp hl).symm
          rw [hh] at hm
          rcases List.mem_append.mp hm with hmo | hmn
          · exact hres kw' hits ht hlk hmo
          · rw [List.mem_singleton] at hmn
            rw [hmn]
            exact hdead
        · rw [alist_lookup_set_ne _ _ _ _ hk] at hl
          exact hres kw' hits' ht hl hm

theorem search_fold_kws_dead (now : Int) (entry : FileEntry) (dead : Bool)
    (hdead : dead = true) :
    ∀ (kws : List (List Char)) (results : List (List Char × List Hit)),
      hits_all_dead results →
      hits_all_dead (kws.foldl (search_kw_step now entry dead) results) := by
  intro kws
  induction kws with
  | nil => intro r h; simpa using h
  | cons kw t ih =>
    intro r h
    simp only [List.foldl_cons]
    exact ih _ (search_kw_step_dead now entry dead hdead r kw h)

theorem search_file_step_dead (dl : List (String × RawDeadEntry)) (now : Int)
    (kws : List (List Char)) (results : List (List Char × List Hit))
    (entry : FileEntry) (hres : hits_all_dead results)
    (hdead : scooper_is_dead dl (entry.host.getD entry.site) now = true) :
    hits_all_dead (search_file_step dl now kws results entry) := by
  by_cases ht : entry.text.isEmpty = true
  · simpa [search_file_step, ht] using hres
  · have heq : search_file_step dl now kws results entry =
        kws.foldl (search_kw_step now entry
          (scooper_is_dead dl (entry.host.getD entry.site) now)) results := by
      simp [search_file_step, ht]
    rw [heq]
    exact search_fold_kws_dead now entry _ hdead kws results hres

theorem search_fold_files_dead (dl : List (String × RawDeadEntry))
    (now : Int) (kws : List (List Char)) :
    ∀ (fi : List FileEntry) (acc : List (List Char × List Hit)),
      (∀ fe ∈ fi, scooper_is_dead dl (fe.host.getD fe.site) now = true) →
      hits_all_dead acc →
      hits_all_dead (fi.foldl (search_file_step dl now kws) acc) := by
  intro fi
  induction fi with
  | nil => intro acc _ h; simpa using h
  | cons e t ih =>
    intro acc hall h
    simp only [List.foldl_cons]
    exact ih _ (fun fe hfe => hall fe (List.mem_cons_of_mem _ hfe))
      (search_file_step_dead dl now kws acc e h
        (hall e (List.mem_cons_self _ _)))

theorem search_hits_dead (dl : List (String × RawDeadEntry)) (now : Int)
    (kws : List (List Char)) (fi : List FileEntry)
    (hall : ∀ fe ∈ fi, scooper_is_dead dl (fe.host.getD fe.site) now = true) :
    hits_all_dead (search_keywords_in_files dl now kws fi) := by
  have hinit : hits_all_dead
      ((py_set_elems kws).map (fun k => (k, ([] : List Hit)))) := by
    intro kw hits ht hl hm
    have := alist_lookup_keys_const (py_set_elems kws) ([] : List Hit) kw hits hl
    rw [this] at hm
    simp at hm
  exact search_fold_files_dead dl now kws fi _ hall hinit

/-- Claim C10: a ledger entry whose until field is absent or unparseable
makes the two engines disagree.  The crawler's `is_site_dead` (run on its
own `load_deadlist` result) reports the site alive and persists nothing, so
the site is crawled and the entry stays in the ledger file; the scooper's
per-file check reports the key dead, so every hit of a search whose files
all resolve to that site key carries is_dead = true.  (An absent until is
reported alive directly; an unparseable until makes the crawler's loader
raise inside its try/except and return an empty ledger.) -/
theorem C10_dead_entry_disagreement (raw : List (String × RawDeadEntry))
    (k : String) (now : Int) (e : RawDeadEntry)
    (hl : alist_lookup raw k = some e)
    (hu : e.until_ts = none ∨ e.until_ts = some none) :
    (is_site_dead (load_deadlist (some raw)) k now).1 = false ∧
    (is_site_dead (load_deadlist (some raw)) k now).2.2 = [] ∧
    scooper_is_dead raw k now = true ∧
    (∀ (keywords : List (List Char)) (file_index : List FileEntry),
      (∀ fe ∈ file_index, fe.host.getD fe.site = k) →
      hits_all_dead (search_keywords_in_files raw now keywords file_index)) := by
  have hsc : scooper_is_dead raw k now = true := by
    rcases hu with hu | hu
    · simp [scooper_is_dead, hl, hu]
    · simp [scooper_is_dead, hl, hu]
  have hcrawler : (is_site_dead (load_deadlist (some raw)) k now).1 = false ∧
      (is_site_dead (load_deadlist (some raw)) k now).2.2 = [] := by
    by_cases hall : raw.all (fun kv =>
        match kv.2.until_ts with
        | some none => false
        | _ => true) = true
    · rcases hu with hu | hu
      · have hload : load_deadlist (some raw) = raw.map (fun kv =>
            (kv.1, { until_ts := kv.2.until_ts.bind id,
                     reason := kv.2.reason })) := by
          simp [load_deadlist, hall]
        have hlk : alist_lookup (load_deadlist (some raw)) k =
            some { until_ts := e.until_ts.bind id, reason := e.reason } := by
          rw [hload]
          rw [alist_lookup_map_val
            (fun r : RawDeadEntry =>
              ({ until_ts := r.until_ts.bind id, reason := r.reason } : DeadEntry)) raw k]
          rw [hl]
          rfl
        constructor
        · simp [is_site_dead, hlk, hu]
        · simp [is_site_dead, hlk, hu]
      · exfalso
        have hmem := alist_lookup_mem hl
        have := List.all_eq_true.mp hall (k, e) hmem
        rw [hu] at this
        simp at this
    · have hload : load_deadlist (some raw) = [] := by
        simp only [load_deadlist]
        rw [if_neg hall]
      constructor
      · simp [is_site_dead, hload, alist_lookup]
      · simp [is_site_dead, hload, alist_lookup]
  refine ⟨hcrawler.1, hcrawler.2, hsc, ?_⟩
  intro keywords file_index hfe
  refine search_hits_dead raw now keywords file_index ?_
  intro fe hmem
  rw [hfe fe hmem]
  exact hsc

/-- Concrete raw ledger with an until-less entry for the C10 witness. -/
def c10_raw : List (String × RawDeadEntry) :=
  [("h", { until_ts := none, reason := "legacy" })]

/-- Witness for C10_dead_entry_disagreement: the crawler reports the site
alive while the scooper flags it dead. -/
theorem C10_witness :
    (is_site_dead (load_deadlist (some c10_raw)) "h" 0).1 = false ∧
    scooper_is_dead c10_raw "h" 0 = true := by
  have H := C10_dead_entry_disagreement c10_raw "h" 0
    { until_ts := none, reason := "legacy" } (by decide) (Or.inl rfl)
  exact ⟨H.1, H.2.2.1⟩

/-! ## Claim C5 -/

theorem foldl_set_lookup_not_mem {κ β γ : Type} [BEq κ] [LawfulBEq κ]
    (g : β → γ) :
    ∀ (nr : List (κ × β)) (m : List (κ × γ)) (k : κ),
      k ∉ nr.map Prod.fst →
      alist_lookup (nr.foldl (fun acc kv => alist_set acc kv.1 (g kv.2)) m) k
        = alist_lookup m k := by
  intro nr
  induction nr with
  | nil => intro m k _; rfl
  | cons p t ih =>
    intro m k h
    simp only [List.map_cons, List.mem_cons, not_or] at h
    simp only [List.foldl_cons]
    rw [ih _ k h.2]
    exact alist_lookup_set_ne m p.1 k (g p.2) h.1

theorem foldl_set_lookup_mem {κ β γ : Type} [BEq κ] [LawfulBEq κ]
    (g : β → γ) :
    ∀ (nr : List (κ × β)) (m : List (κ × γ)) (k : κ) (v : β),
      (nr.map Prod.fst).Nodup → alist_lookup nr k = some v →
      alist_lookup (nr.foldl (fun acc kv => alist_set acc kv.1 (g kv.2)) m) k
        = some (g v) := by
  intro nr
  induction nr with
  | nil => intro m k v _ h; simp [alist_lookup] at h
  | cons p t ih =>
    intro m k v hnd hlk
    simp only [List.map_cons, List.nodup_cons] at hnd
    simp only [List.foldl_cons]
    by_cases hk : p.fst == k
    · have hpk : p.fst = k := by simpa using hk
      have hv : p.snd = v := by
        simpa [alist_lookup, List.find?, hk] using hlk
      have hnot : k ∉ t.map Prod.fst := by
        rw [← hpk]
        exact hnd.1
      rw [foldl_set_lookup_not_mem g t _ k hnot, ← hv, ← hpk]
      exact alist_lookup_set_self m p.1 (g p.snd)
    · have hlk' : alist_lookup t k = some v := by
        simpa [alist_lookup, List.find?, hk] using hlk
      exact ih _ k v hnd.2 hlk'

theorem alist_set_map_fst {κ β : Type} [BEq κ] [LawfulBEq κ] :
    ∀ (m : List (κ × β)) (k : κ) (v v0 : β),
      alist_lookup m k = some v0 →
      (alist_set m k v).map Prod.fst = m.map Prod.fst := by
  intro m
  induction m with
  | nil => intro k v v0 h; simp [alist_lookup] at h
  | cons p t ih =>
    intro k v v0 h
    by_cases hk : p.fst == k
    · have hpk : p.fst = k := by simpa using hk
      simp [alist_set, hk, hpk]
    · have h' : alist_lookup t k = some v0 := by
        simpa [alist_lookup, List.find?, hk] using h
      simp only [alist_set, hk, Bool.false_eq_true, if_false, List.map_cons]
      rw [ih k v v0 h']

theorem alist_lookup_of_mem_keys {κ β : Type} [BEq κ] [LawfulBEq κ] :
    ∀ (m : List (κ × β)) (k : κ), k ∈ m.map Prod.fst →
      ∃ v, alist_lookup m k = some v := by
  intro m
  induction m with
  | nil => intro k h; simp at h
  | cons p t ih =>
    intro k h
    by_cases hk : p.fst == k
    · exact ⟨p.snd, by simp [alist_lookup, List.find?, hk]⟩
    · have hne : ¬ (k = p.fst) := by
        intro he
        rw [he] at hk
        simp at hk
      simp only [List.map_cons, List.mem_cons] at h
      rcases h with h1 | h2
      · exact absurd h1 hne
      · obtain ⟨v, hv⟩ := ih k h2
        exact ⟨v, by simpa [alist_lookup, List.find?, hk] using hv⟩

theorem search_kw_step_keys (now : Int) (entry : FileEntry) (dead : Bool)
    (results : List (List Char × List Hit)) (kw : List Char) :
    (search_kw_step now entry dead results kw).map Prod.fst
      = results.map Prod.fst := by
  by_cases h1 : kw.isEmpty = true
  · simp [search_kw_step, h1]
  · by_cases h2 : (find_snippets entry.text kw SNIPPET_CHARS).isEmpty = true
    · simp [search_kw_step, h1, h2]
    · cases hlk : alist_lookup results kw with
      | none => simp [search_kw_step, h1, h2, hlk]
      | some hits =>
        have hstep : search_kw_step now entry dead results kw =
            alist_set results kw (hits ++
              [{ site := entry.site, url := entry.url, file := entry.fpath,
                 archived := entry.archived, is_dead := dead,
                 snippets := find_snippets entry.text kw SNIPPET_CHARS,
                 found_at := now }]) := by
          simp [search_kw_step, h1, h2, hlk]
        rw [hstep]
        exact alist_set_map_fst results kw _ hits hlk

theorem search_fold_kws_keys (now : Int) (entry : FileEntry) (dead : Bool) :
    ∀ (kws : List (List Char)) (results : List (List Char × List Hit)),
      (kws.foldl (search_kw_step now entry dead) results).map Prod.fst
        = results.map Prod.fst := by
  intro kws
  induction kws with
  | nil => intro r; rfl
  | cons kw t ih =>
    intro r
    simp only [List.foldl_cons]
    rw [ih, search_kw_step_keys]

theorem search_file_step_keys (dl : List (String × RawDeadEntry)) (now : Int)
    (kws : List (List Char)) (results : List (List Char × List Hit))
    (entry : FileEntry) :
    (search_file_step dl now kws results entry).map Prod.fst
      = results.map Prod.fst := by
  by_cases ht : entry.text.isEmpty = true
  · simp [search_file_step, ht]
  · have heq : search_file_step dl now kws results entry =
        kws.foldl (search_kw_step now entry
          (scooper_is_dead dl (entry.host.getD entry.site) now)) results := by
      simp [search_file_step, ht]
    rw [heq]
    exact search_fold_kws_keys now entry _ kws results

theorem search_keys (dl : List (String × RawDeadEntry)) (now : Int)
    (kws : List (List Char)) (fi : List FileEntry) :
    (search_keywords_in_files dl now kws fi).map Prod.fst
      = py_set_elems kws := by
  have hfold : ∀ (l : List FileEntry) (acc : List (List Char × List Hit)),
      (l.foldl (search_file_step dl now kws) acc).map Prod.fst
        = acc.map Prod.fst := by
    intro l
    induction l with
    | nil => intro acc; rfl
    | cons e t ih =>
      intro acc
      simp only [List.foldl_cons]
      rw [ih, search_file_step_keys]
  unfold search_keywords_in_files
  rw [hfold, List.map_map]
  have hcomp : (Prod.fst ∘ fun k : List Char => (k, ([] : List Hit))) = id := rfl
  rw [hcomp, List.map_id]

theorem py_set_elems_eq_self {α : Type} [BEq α] [LawfulBEq α] :
    ∀ (l : List α), l.Nodup → py_set_elems l = l := by
  intro l
  induction l with
  | nil => intro _; rfl
  | cons a t ih =>
    intro hnd
    rw [List.nodup_cons] at hnd
    simp only [py_set_elems]
    rw [ih hnd.2]
    congr 1
    apply List.filter_eq_self.mpr
    intro b hb
    simp only [Bool.not_eq_true', beq_eq_false_iff_ne]
    intro he
    rw [he] at hb
    exact hnd.1 hb

/-- Claim C5: in a watch poll where the run-complete marker has not
advanced, the searches performed are exactly one batch holding the added
keywords (none when nothing was added), the merge replaces only the added
keywords' entries — every other keyword's entry in the results store is
unchanged — and each added keyword's entry becomes the fresh search result.
When the marker has advanced, the poll records the new marker time and the
final store maps every keyword of the current keyword set to the entry
produced by the search over the full enumerated current set (which covers
the whole current set). -/
theorem C5_watch_poll_spec (last_set : List (List Char))
    (last_run_ts : Option Int) (keywords_file : Option (List Char))
    (marker_mtime : Option Int) (deadlist : List (String × RawDeadEntry))
    (file_index : List FileEntry)
    (set_order_kw : List (List Char) → List (List Char)) (now : Int)
    (store : ResultsStore) (hadm : admissible_kw_order set_order_kw) :
    ((∀ m, marker_mtime = some m → marker_newer last_run_ts m = false) →
      (watch_poll last_set last_run_ts keywords_file marker_mtime deadlist
          file_index set_order_kw now store).2.2.2
        = (if (added_keywords last_set (load_keywords keywords_file)).isEmpty
           then []
           else [added_keywords last_set (load_keywords keywords_file)]) ∧
      (∀ kw, kw ∉ added_keywords last_set (load_keywords keywords_file) →
        alist_lookup (watch_poll last_set last_run_ts keywords_file
            marker_mtime deadlist file_index set_order_kw now
            store).2.2.1.keywords kw
          = alist_lookup store.keywords kw) ∧
      (∀ kw hits, kw ∈ added_keywords last_set (load_keywords keywords_file) →
        alist_lookup (search_keywords_in_files deadlist now
            (added_keywords last_set (load_keywords keywords_file))
            file_index) kw = some hits →
        alist_lookup (watch_poll last_set last_run_ts keywords_file
            marker_mtime deadlist file_index set_order_kw now
            store).2.2.1.keywords kw
          = some { last_searched_at := now, hits := hits })) ∧
    (∀ m, marker_mtime = some m → marker_newer last_run_ts m = true →
      (watch_poll last_set last_run_ts keywords_file marker_mtime deadlist
          file_index set_order_kw now store).2.1 = some m ∧
      (∀ kw, kw ∈ py_set_elems (load_keywords keywords_file) →
        kw ∈ set_order_kw (py_set_elems (load_keywords keywords_file)) ∧
        ∃ hits,
          alist_lookup (search_keywords_in_files deadlist now
              (set_order_kw (py_set_elems (load_keywords keywords_file)))
              file_index) kw = some hits ∧
          alist_lookup (watch_poll last_set last_run_ts keywords_file
              marker_mtime deadlist file_index set_order_kw now
              store).2.2.1.keywords kw
            = some { last_searched_at := now, hits := hits })) := by
  constructor
  · intro hmk
    by_cases hadded :
        (added_keywords last_set (load_keywords keywords_file)).isEmpty = true
    · have hR : watch_poll last_set last_run_ts keywords_file marker_mtime
          deadlist file_index set_order_kw now store
          = (last_set, last_run_ts, store, []) := by
        cases hmm : marker_mtime with
        | none => simp [watch_poll, hadded]
        | some m =>
          have hfalse := hmk m hmm
          simp [watch_poll, hadded, hfalse]
      refine ⟨?_, ?_, ?_⟩
      · rw [hR, if_pos hadded]
      · intro kw _
        rw [hR]
      · intro kw hits hkwmem _
        rw [List.isEmpty_iff.mp hadded] at hkwmem
        simp at hkwmem
    · have hR : watch_poll last_set last_run_ts keywords_file marker_mtime
          deadlist file_index set_order_kw now store
          = (py_set_elems (load_keywords keywords_file), last_run_ts,
             update_results_for_keywords store
               (search_keywords_in_files deadlist now
                 (added_keywords last_set (load_keywords keywords_file))
                 file_index) "new-keywords" now,
             [added_keywords last_set (load_keywords keywords_file)]) := by
        cases hmm : marker_mtime with
        | none => simp [watch_poll, hadded]
        | some m =>
          have hfalse := hmk m hmm
          simp [watch_poll, hadded, hfalse]
      refine ⟨?_, ?_, ?_⟩
      · rw [hR, if_neg (by simp [hadded])]
      · intro kw hkw
        rw [hR]
        have hkeys := search_keys deadlist now
          (added_keywords last_set (load_keywords keywords_file)) file_index
        have hnot : kw ∉ (search_keywords_in_files deadlist now
            (added_keywords last_set (load_keywords keywords_file))
            file_index).map Prod.fst := by
          rw [hkeys]
          intro hc
          exact hkw ((mem_py_set_elems _ _).mp hc)
        exact foldl_set_lookup_not_mem
          (fun h : List Hit => ({ last_searched_at := now, hits := h } : KwEntry))
          _ _ kw hnot
      · intro kw hits _ hlk
        rw [hR]
        have hkeys := search_keys deadlist now
          (added_keywords last_set (load_keywords keywords_file)) file_index
        have hnd : ((search_keywords_in_files deadlist now
            (added_keywords last_set (load_keywords keywords_file))
            file_index).map Prod.fst).Nodup := by
          rw [hkeys]
          exact nodup_py_set_elems _
        exact foldl_set_lookup_mem
          (fun h : List Hit => ({ last_searched_at := now, hits := h } : KwEntry))
          _ _ kw hits hnd hlk
  · intro m hm hnew
    obtain ⟨st1, hstore, hrun⟩ : ∃ st1,
        (watch_poll last_set last_run_ts keywords_file marker_mtime deadlist
            file_index set_order_kw now store).2.2.1
          = (if (set_order_kw (py_set_elems
                (load_keywords keywords_file))).isEmpty
             then st1
             else update_results_for_keywords st1
               (search_keywords_in_files deadlist now
                 (set_order_kw (py_set_elems (load_keywords keywords_file)))
                 file_index) "crawler-run-complete" now) ∧
        (watch_poll last_set last_run_ts keywords_file marker_mtime deadlist
            file_index set_order_kw now store).2.1 = some m := by
      by_cases hadded :
          (added_keywords last_set (load_keywords keywords_file)).isEmpty = true
      · refine ⟨store, ?_, ?_⟩
        · by_cases hkw : (set_order_kw (py_set_elems
              (load_keywords keywords_file))).isEmpty = true
          · simp [watch_poll, hadded, hm, hnew, hkw]
          · simp [watch_poll, hadded, hm, hnew, hkw]
        · by_cases hkw : (set_order_kw (py_set_elems
              (load_keywords keywords_file))).isEmpty = true
          · simp [watch_poll, hadded, hm, hnew, hkw]
          · simp [watch_poll, hadded, hm, hnew, hkw]
      · refine ⟨update_results_for_keywords store
          (search_keywords_in_files deadlist now
            (added_keywords last_set (load_keywords keywords_file))
            file_index) "new-keywords" now, ?_, ?_⟩
        · by_cases hkw : (set_order_kw (py_set_elems
              (load_keywords keywords_file))).isEmpty = true
          · simp [watch_poll, hadded, hm, hnew, hkw]
          · simp [watch_poll, hadded, hm, hnew, hkw]
        · by_cases hkw : (set_order_kw (py_set_elems
              (load_keywords keywords_file))).isEmpty = true
          · simp [watch_poll, hadded, hm, hnew, hkw]
          · simp [watch_poll, hadded, hm, hnew, hkw]
    refine ⟨hrun, ?_⟩
    intro kw hkw
    have hcurnd : (py_set_elems (load_keywords keywords_file)).Nodup :=
      nodup_py_set_elems _
    have hperm := hadm (py_set_elems (load_keywords keywords_file))
    rw [py_set_elems_eq_self _ hcurnd] at hperm
    have hkw2 : kw ∈ set_order_kw (py_set_elems (load_keywords keywords_file)) :=
      hperm.mem_iff.mpr hkw
    refine ⟨hkw2, ?_⟩
    have hne : (set_order_kw (py_set_elems
        (load_keywords keywords_file))).isEmpty = false := by
      cases hset : set_order_kw (py_set_elems (load_keywords keywords_file)) with
      | nil =>
        rw [hset] at hkw2
        simp at hkw2
      | cons a t => rfl
    have hnd2 : (set_order_kw (py_set_elems
        (load_keywords keywords_file))).Nodup := hperm.nodup_iff.mpr hcurnd
    have hkeys := search_keys deadlist now
      (set_order_kw (py_set_elems (load_keywords keywords_file))) file_index
    rw [py_set_elems_eq_self _ hnd2] at hkeys
    have hmemkeys : kw ∈ (search_keywords_in_files deadlist now
        (set_order_kw (py_set_elems (load_keywords keywords_file)))
        file_index).map Prod.fst := by
      rw [hkeys]
      exact hkw2
    obtain ⟨hits, hhits⟩ := alist_lookup_of_mem_keys _ kw hmemkeys
    refine ⟨hits, hhits, ?_⟩
    rw [hstore]
    rw [if_neg (by simp [hne])]
    have hnd3 : ((search_keywords_in_files deadlist now
        (set_order_kw (py_set_elems (load_keywords keywords_file)))
        file_index).map Prod.fst).Nodup := by
      rw [hkeys]
      exact hnd2
    exact foldl_set_lookup_mem
      (fun h : List Hit => ({ last_searched_at := now, hits := h } : KwEntry))
      _ _ kw hits hnd3 hhits

/-- Witness for C5_watch_poll_spec: adding one keyword with no marker
advance triggers exactly one search batch holding that keyword. -/
theorem C5_witness :
    (watch_poll [] none (some ['k']) none [] []
        (fun xs => py_set_elems xs) 7 empty_results_store).2.2.2
      = [added_keywords [] (load_keywords (some ['k']))] := by
  have H := (C5_watch_poll_spec [] none (some ['k']) none [] []
    (fun xs => py_set_elems xs) 7 empty_results_store
    (fun xs => List.Perm.refl _)).1 (fun m hm => Option.noConfusion hm)
  rw [H.1, if_neg (by decide)]
